import Mathlib

/-!
Verification of the vibe-ragnar code-intelligence indexer.

This file gives a shallow embedding of the core data structures and
operations of the repository and proves properties of them:

* `parser/entities.py` — the entity model (`Function`, `Class`, `File`,
  `TypeDefinition`), entity ids and content hashes;
* `graph/storage.py` — `GraphStorage`, an in-memory directed graph backed
  by a NetworkX `DiGraph` (nodes keyed by string id, at most one edge per
  ordered pair of nodes, the edge labelled by a `type` attribute);
* `graph/builder.py` — `ScopedSymbolTable` and `GraphBuilder` with its
  two-pass build and external-placeholder reconciliation;
* `embeddings/sync.py` — `EmbeddingSync.sync_entities` / `sync_file`;
* `parser/treesitter.py` — the early-return paths of
  `TreeSitterParser.parse_file`.

Python dictionaries are modelled as association lists with
insertion-order semantics: assignment to an existing key updates the
value in place, assignment to a fresh key appends.  The SHA-256 digest is
modelled as an arbitrary function `String → String` passed explicitly.
-/

namespace VR

/-! ## Association-list helpers (Python `dict` semantics) -/

/-- Assignment `d[k] = v` on an insertion-ordered dictionary: update the
first entry with key `k` in place, otherwise append. -/
def setAssoc (k : String) (v : ν) : List (String × ν) → List (String × ν)
  | [] => [(k, v)]
  | (k', v') :: rest =>
    if k' = k then (k, v) :: rest else (k', v') :: setAssoc k v rest

/-- Lookup `d.get(k)` on an insertion-ordered dictionary. -/
def getAssoc (k : String) : List (String × ν) → Option ν
  | [] => none
  | (k', v') :: rest => if k' = k then some v' else getAssoc k rest

/-- Deletion `d.pop(k, None)` on a dictionary (all entries with key `k`
are removed; keys are unique in an actual `dict`). -/
def delAssoc (k : String) (l : List (String × ν)) : List (String × ν) :=
  l.filter (fun p => p.1 ≠ k)

/-! ## Entity model (`parser/entities.py`) -/

/-- Entity `Function` from `parser/entities.py` (fields read by the
operations under verification). -/
structure Function where
  repo : String
  file_path : String
  name : String
  start_line : Nat
  end_line : Nat
  signature : String
  docstring : Option String
  code : String
  class_name : Option String
  decorators : List String
  calls : List String
  is_async : Bool
deriving DecidableEq

/-- Entity `Class` from `parser/entities.py`. -/
structure Class where
  repo : String
  file_path : String
  name : String
  start_line : Nat
  end_line : Nat
  docstring : Option String
  code : String
  bases : List String
  decorators : List String
  methods : List String
deriving DecidableEq

/-- Entity `File` from `parser/entities.py`. -/
structure File where
  repo : String
  file_path : String
  name : String
  start_line : Nat
  end_line : Nat
  language : String
  imports : List String
  defines : List String
deriving DecidableEq

/-- Entity `TypeDefinition` from `parser/entities.py` (`kind` is one of
`interface`, `type`, `struct`, `enum`). -/
structure TypeDefinition where
  repo : String
  file_path : String
  name : String
  start_line : Nat
  end_line : Nat
  definition : String
  docstring : Option String
  kind : String
deriving DecidableEq

/-- The union type `AnyEntity = Function | Class | File | TypeDefinition`. -/
inductive Entity where
  | func (f : Function)
  | cls (c : Class)
  | file (f : File)
  | typ (t : TypeDefinition)
deriving DecidableEq

/-- Accessor `entity.name`. -/
def Entity.name : Entity → String
  | .func f => f.name
  | .cls c => c.name
  | .file f => f.name
  | .typ t => t.name

/-- Accessor `entity.file_path`. -/
def Entity.filePath : Entity → String
  | .func f => f.file_path
  | .cls c => c.file_path
  | .file f => f.file_path
  | .typ t => t.file_path

/-- Accessor `entity.start_line`. -/
def Entity.startLine : Entity → Nat
  | .func f => f.start_line
  | .cls c => c.start_line
  | .file f => f.start_line
  | .typ t => t.start_line

/-- Accessor `entity.end_line`. -/
def Entity.endLine : Entity → Nat
  | .func f => f.end_line
  | .cls c => c.end_line
  | .file f => f.end_line
  | .typ t => t.end_line

/-- Property `entity_path`: for a `Function` it is
`ClassName.method_name` when `class_name` is set, otherwise the plain
name; a `File` has the empty entity path; other variants use the name. -/
def Entity.entityPath : Entity → String
  | .func f =>
    match f.class_name with
    | some c => c ++ "." ++ f.name
    | none => f.name
  | .cls c => c.name
  | .file _ => ""
  | .typ t => t.name

/-- Accessor `entity.repo`. -/
def Entity.repoOf : Entity → String
  | .func f => f.repo
  | .cls c => c.repo
  | .file f => f.repo
  | .typ t => t.repo

/-- Computed field `id`: `repo:file_path:entity_path` for non-File
entities and `repo:file_path` for Files. -/
def Entity.id : Entity → String
  | .file f => f.repo ++ ":" ++ f.file_path
  | e => e.repoOf ++ ":" ++ e.filePath ++ ":" ++ e.entityPath

/-- Value of `entity.entity_type.value` as stored on graph nodes. -/
def Entity.typeTag : Entity → String
  | .func _ => "function"
  | .cls _ => "class"
  | .file _ => "file"
  | .typ _ => "type"

/-- Predicate `EmbeddingSync._is_embeddable`: true for `Function`,
`Class` and `TypeDefinition`, false for `File`. -/
def Entity.isEmbeddable : Entity → Bool
  | .file _ => false
  | _ => true

/-- Content hash of a `Class`
(`parser/entities.py`, `Class.content_hash`): the digest of
`name:sorted(bases):sorted(decorators)`, where `sorted` is ascending
lexicographic string sort and the lists are joined with `","`.  The
digest function `h` models `sha256 ∘ hexdigest`. -/
def classContentHash (h : String → String) (c : Class) : String :=
  h (c.name ++ ":" ++ String.intercalate "," (c.bases.insertionSort (· ≤ ·))
      ++ ":" ++ String.intercalate "," (c.decorators.insertionSort (· ≤ ·)))

/-- Content hash of any embeddable entity: for `Function` the digest of
`code`, for `TypeDefinition` the digest of `definition`, for `Class` the
signature digest `classContentHash`; a `File` has no content hash in the
source, modelled as the digest of the empty string (never consulted). -/
def Entity.contentHash (h : String → String) : Entity → String
  | .func f => h f.code
  | .cls c => classContentHash h c
  | .typ t => h t.definition
  | .file _ => h ""

/-! ## Graph storage (`graph/storage.py`) -/

/-- Labels `EdgeType` from `graph/storage.py`. -/
inductive EdgeType where
  | imports
  | defines
  | calls
  | inherits
  | uses
  | contains
deriving DecidableEq

/-- String value of an `EdgeType` (the `str`-enum value). -/
def EdgeType.value : EdgeType → String
  | .imports => "imports"
  | .defines => "defines"
  | .calls => "calls"
  | .inherits => "inherits"
  | .uses => "uses"
  | .contains => "contains"

/-- Conversion `EdgeType(s)` from a stored string value.  In the source
an unknown value raises `ValueError`; edges in the graph always carry a
valid value, so the fallback branch is unreachable and totalised to
`.calls` (the default in `_resolve_external_reference`). -/
def edgeTypeOfValue (s : String) : EdgeType :=
  if s = "imports" then .imports
  else if s = "defines" then .defines
  else if s = "inherits" then .inherits
  else if s = "uses" then .uses
  else if s = "contains" then .contains
  else .calls

/-- Attributes stored on a graph node by `GraphStorage.add_entity`
(`type`, `name`, `file_path`, line range, `data`).  External placeholder
nodes created by `add_edge_by_name` carry only `type` and `name`, so the
remaining attributes are optional. -/
structure NodeAttrs where
  type : String
  name : String
  file_path : Option String
  start_line : Option Nat
  end_line : Option Nat
  data : Option Entity
deriving DecidableEq

/-- The NetworkX `DiGraph` underlying `GraphStorage`: nodes keyed by id
(insertion-ordered, unique keys), and at most one edge per ordered pair
`(u, v)`, carrying the string value of its `EdgeType` as the `type`
attribute. -/
structure Graph where
  nodes : List (String × NodeAttrs)
  edges : List (String × String × String)
deriving DecidableEq

/-- Construction `GraphStorage.__init__`: the empty directed graph. -/
def Graph.empty : Graph := ⟨[], []⟩

/-- Membership test `entity_id in self._graph`
(`GraphStorage.has_entity`). -/
def Graph.hasNode (g : Graph) (id : String) : Bool :=
  (getAssoc id g.nodes).isSome

/-- Raw `DiGraph.add_node(id, **attrs)`: inserts the node or replaces
its attributes (every call site passes the full attribute set). -/
def Graph.addNodeRaw (g : Graph) (id : String) (a : NodeAttrs) : Graph :=
  ⟨setAssoc id a g.nodes, g.edges⟩

/-- Operation `GraphStorage.add_entity`. -/
def Graph.addEntity (g : Graph) (e : Entity) : Graph :=
  g.addNodeRaw e.id
    ⟨e.typeTag, e.name, some e.filePath, some e.startLine, some e.endLine, some e⟩

/-- Raw `DiGraph.add_edge(u, v, type=t)`: updates the `type` attribute
of the existing `(u, v)` edge in place, otherwise appends the edge.
(A `DiGraph` holds at most one edge per ordered pair.) -/
def setEdge (u v tv : String) : List (String × String × String) → List (String × String × String)
  | [] => [(u, v, tv)]
  | (a, b, c) :: rest =>
    if a = u ∧ b = v then (u, v, tv) :: rest else (a, b, c) :: setEdge u v tv rest

/-- Raw edge insertion on the underlying graph (used where the source
calls `self._graph.add_edge` directly with both endpoints known to
exist). -/
def Graph.addEdgeRaw (g : Graph) (u v : String) (t : EdgeType) : Graph :=
  ⟨g.nodes, setEdge u v t.value g.edges⟩

/-- Operation `GraphStorage.add_edge`: only adds the edge if both nodes
exist. -/
def Graph.addEdge (g : Graph) (u v : String) (t : EdgeType) : Graph :=
  if g.hasNode u ∧ g.hasNode v then g.addEdgeRaw u v t else g

/-- Operation `GraphStorage.remove_entity` / `DiGraph.remove_node`:
removes the node and all incident edges. -/
def Graph.removeNode (g : Graph) (id : String) : Graph :=
  if g.hasNode id then
    ⟨g.nodes.filter (fun p => p.1 ≠ id),
     g.edges.filter (fun e => e.1 ≠ id ∧ e.2.1 ≠ id)⟩
  else g

/-- Helper `GraphStorage._find_by_name`: first node (in insertion order)
whose `name` attribute equals `name`. -/
def Graph.findByName (g : Graph) (name : String) : Option String :=
  (g.nodes.find? (fun p => p.2.name = name)).map (·.1)

/-- Operation `GraphStorage.add_edge_by_name` (with its `bool` result
dropped): resolve the target by name, optionally creating an external
placeholder node `external:<name>` with attributes
`{type: "external", name}`. -/
def Graph.addEdgeByName (g : Graph) (fromId toName : String) (t : EdgeType)
    (createIfMissing : Bool) : Graph :=
  if (g.hasNode fromId : Bool) then
    match g.findByName toName with
    | some toId => g.addEdgeRaw fromId toId t
    | none =>
      if createIfMissing then
        (g.addNodeRaw ("external:" ++ toName)
          ⟨"external", toName, none, none, none, none⟩).addEdgeRaw
            fromId ("external:" ++ toName) t
      else g
  else g

/-- Operation `GraphStorage.get_predecessors` without a type filter:
the `(source_id, type)` pairs of all in-edges of `id`. -/
def Graph.getPredecessors (g : Graph) (id : String) : List (String × String) :=
  (g.edges.filter (fun e => e.2.1 = id)).map (fun e => (e.1, e.2.2))

/-- Operation `GraphStorage.get_entities_by_file`: ids of all nodes
whose `file_path` attribute equals `path` (external placeholders have no
`file_path`, so `data.get("file_path")` yields `None` for them). -/
def Graph.getEntitiesByFile (g : Graph) (path : String) : List String :=
  (g.nodes.filter (fun p => p.2.file_path = some path)).map (·.1)

/-- Operation `GraphStorage.remove_file`: removes every node of the file
(along with incident edges) and returns the removed ids. -/
def Graph.removeFile (g : Graph) (path : String) : Graph × List String :=
  let toRemove := g.getEntitiesByFile path
  (toRemove.foldl (fun g' id => g'.removeNode id) g, toRemove)

/-! ## Scoped symbol table (`graph/builder.py`, `ScopedSymbolTable`) -/

/-- State of `ScopedSymbolTable`: global scope (simple name to entity
id), per-file scopes, qualified names, and the reverse index
`entity_id → [(scope, key), …]` used by `unregister`. -/
structure ScopedSymbolTable where
  global_scope : List (String × String)
  file_scopes : List (String × List (String × String))
  qualified_names : List (String × String)
  entity_to_names : List (String × List (String × String))
deriving DecidableEq

/-- The empty symbol table. -/
def ScopedSymbolTable.empty : ScopedSymbolTable := ⟨[], [], [], []⟩

/-- Assignment `self.file_scopes[file_path][name] = entity_id`,
initialising the file scope to `{}` first when absent (the combined
effect of the two statements in `register`). -/
def ScopedSymbolTable.setFileScope (t : ScopedSymbolTable)
    (filePath name entityId : String) : ScopedSymbolTable :=
  let scope := (getAssoc filePath t.file_scopes).getD []
  { t with file_scopes := setAssoc filePath (setAssoc name entityId scope) t.file_scopes }

/-- Operation `ScopedSymbolTable.register`.  The reverse-index entries
are accumulated in source order: `("file", name)`, then for a qualified
name `("qualified", q)` and `("file", q)`, then when exported
`("global", name)` and (for a qualified name) `("global", q)`.  The
final assignment `self.entity_to_names[entity_id] = registered_names`
replaces any previous record for the entity. -/
def ScopedSymbolTable.register (t : ScopedSymbolTable) (entityId name filePath : String)
    (qualifiedName : Option String) (isExported : Bool) : ScopedSymbolTable :=
  let registered := [("file", name)]
  let t := t.setFileScope filePath name entityId
  let (t, registered) :=
    match qualifiedName with
    | some q =>
      let t := { t with qualified_names := setAssoc q entityId t.qualified_names }
      let t := t.setFileScope filePath q entityId
      (t, registered ++ [("qualified", q), ("file", q)])
    | none => (t, registered)
  let (t, registered) :=
    if isExported then
      let t := { t with global_scope := setAssoc name entityId t.global_scope }
      match qualifiedName with
      | some q =>
        ({ t with global_scope := setAssoc q entityId t.global_scope },
         registered ++ [("global", name), ("global", q)])
      | none => (t, registered ++ [("global", name)])
    else (t, registered)
  { t with entity_to_names := setAssoc entityId registered t.entity_to_names }

/-- Operation `ScopedSymbolTable.resolve`: qualified names first, then
the file-local scope of `contextFile`, then the global scope. -/
def ScopedSymbolTable.resolve (t : ScopedSymbolTable) (name : String)
    (contextFile : Option String) : Option String :=
  match getAssoc name t.qualified_names with
  | some id => some id
  | none =>
    match contextFile.bind (fun cf => (getAssoc cf t.file_scopes).bind (getAssoc name)) with
    | some id => some id
    | none => getAssoc name t.global_scope

/-- Processing of one reverse-index entry `(scope_type, name)` inside
`ScopedSymbolTable.unregister`: a `"global"` or `"qualified"` entry pops
`name` from the corresponding map; a `"file"` entry pops `name` from
**every** file scope. -/
def ScopedSymbolTable.unregisterStep (t : ScopedSymbolTable) :
    String × String → ScopedSymbolTable
  | (scopeType, name) =>
    if scopeType = "global" then
      { t with global_scope := delAssoc name t.global_scope }
    else if scopeType = "qualified" then
      { t with qualified_names := delAssoc name t.qualified_names }
    else if scopeType = "file" then
      { t with file_scopes := t.file_scopes.map (fun p => (p.1, delAssoc name p.2)) }
    else t

/-- Operation `ScopedSymbolTable.unregister`: replay the reverse-index
entries of the entity, then delete its reverse-index record. -/
def ScopedSymbolTable.unregister (t : ScopedSymbolTable) (entityId : String) :
    ScopedSymbolTable :=
  match getAssoc entityId t.entity_to_names with
  | none => t
  | some entries =>
    let t := entries.foldl ScopedSymbolTable.unregisterStep t
    { t with entity_to_names := delAssoc entityId t.entity_to_names }

/-! ## Graph builder (`graph/builder.py`, `GraphBuilder`) -/

/-- State of a `GraphBuilder`: its `GraphStorage` and its
`ScopedSymbolTable`.  The `ImportResolver` is treated as an external
collaborator and abstracted as the function argument `ir` of the
operations below (`resolve(import_name, context_file, language)` giving
a repo-relative resolved path or `none` when external/unresolved). -/
structure Builder where
  storage : Graph
  symtab : ScopedSymbolTable
deriving DecidableEq

/-- Helper `GraphBuilder._resolve_external_reference`: if a placeholder
node `external:<name>` exists, redirect all of its incoming edges onto
`realId` (preserving each edge's type) and delete the placeholder. -/
def Builder.resolveExternalReference (g : Graph) (name realId : String) : Graph :=
  let externalId := "external:" ++ name
  if g.hasNode externalId then
    let incoming := g.getPredecessors externalId
    let g := incoming.foldl
      (fun g' p => g'.addEdge p.1 realId (edgeTypeOfValue p.2)) g
    g.removeNode externalId
  else g

/-- Helper `GraphBuilder._register_symbol`: register a `Function`,
`Class` or `TypeDefinition` in the symbol table (with the qualified
`ClassName.method` name for methods) and immediately reconcile external
placeholders of the registered name(s); `File` entities are not
registered. -/
def Builder.registerSymbol (b : Builder) (e : Entity) : Builder :=
  match e with
  | .func f =>
    let qualifiedName := f.class_name.map (fun c => c ++ "." ++ f.name)
    let st := b.symtab.register e.id f.name f.file_path qualifiedName true
    let g := Builder.resolveExternalReference b.storage f.name e.id
    let g :=
      match qualifiedName with
      | some q => Builder.resolveExternalReference g q e.id
      | none => g
    ⟨g, st⟩
  | .cls c =>
    let st := b.symtab.register e.id c.name c.file_path none true
    ⟨Builder.resolveExternalReference b.storage c.name e.id, st⟩
  | .typ t =>
    let st := b.symtab.register e.id t.name t.file_path none true
    ⟨Builder.resolveExternalReference b.storage t.name e.id, st⟩
  | .file _ => b

/-- One iteration of pass 1 of `build_from_entities` / `update_file`:
`self._storage.add_entity(entity); self._register_symbol(entity)`. -/
def Builder.pass1Step (b : Builder) (e : Entity) : Builder :=
  Builder.registerSymbol { b with storage := b.storage.addEntity e } e

/-- Helper `GraphBuilder._resolve_import`: ask the import resolver for a
repo-relative path, then find the file node whose `file_path` equals the
resolved path or ends with `"/" ++ resolved path`. -/
def Builder.resolveImport (ir : String → String → String → Option String)
    (g : Graph) (importName contextFile language : String) : Option String :=
  match ir importName contextFile language with
  | none => none
  | some resolvedPath =>
    (g.nodes.find? (fun p =>
      p.2.type = "file" ∧
        ((p.2.file_path.getD "") = resolvedPath ∨
          (p.2.file_path.getD "").endsWith ("/" ++ resolvedPath)))).map (·.1)

/-- Helper `GraphBuilder._build_function_edges`: CALLS edges for each
call name (resolved through the symbol table, else attached to an
external placeholder), and a CONTAINS edge from the containing class. -/
def Builder.buildFunctionEdges (b : Builder) (f : Function) : Builder :=
  let fid := Entity.id (.func f)
  let g := f.calls.foldl
    (fun g call =>
      match b.symtab.resolve call (some f.file_path) with
      | some targetId => g.addEdge fid targetId .calls
      | none => g.addEdgeByName fid call .calls true)
    b.storage
  let g :=
    match f.class_name with
    | some cn =>
      match b.symtab.resolve cn (some f.file_path) with
      | some classId => g.addEdge classId fid .contains
      | none => g
    | none => g
  { b with storage := g }

/-- Helper `GraphBuilder._build_class_edges`: INHERITS edges for each
base name. -/
def Builder.buildClassEdges (b : Builder) (c : Class) : Builder :=
  let cid := Entity.id (.cls c)
  let g := c.bases.foldl
    (fun g base =>
      match b.symtab.resolve base (some c.file_path) with
      | some targetId => g.addEdge cid targetId .inherits
      | none => g.addEdgeByName cid base .inherits true)
    b.storage
  { b with storage := g }

/-- Helper `GraphBuilder._build_file_edges`: DEFINES edges for each id
in `file.defines` present in the graph, and IMPORTS edges for each of
the imports (resolved to an internal file node, else attached to an
external placeholder). -/
def Builder.buildFileEdges (ir : String → String → String → Option String)
    (b : Builder) (f : File) : Builder :=
  let fid := Entity.id (.file f)
  let g := f.defines.foldl
    (fun g eid => if g.hasNode eid then g.addEdge fid eid .defines else g)
    b.storage
  let g := f.imports.foldl
    (fun g im =>
      match Builder.resolveImport ir g im f.file_path f.language with
      | some targetId => g.addEdge fid targetId .imports
      | none => g.addEdgeByName fid im .imports true)
    g
  { b with storage := g }

/-- Helper `GraphBuilder._build_edges` (pass 2, one entity):
`TypeDefinition` entities produce no edges. -/
def Builder.buildEdges (ir : String → String → String → Option String)
    (b : Builder) (e : Entity) : Builder :=
  match e with
  | .func f => b.buildFunctionEdges f
  | .cls c => b.buildClassEdges c
  | .file f => Builder.buildFileEdges ir b f
  | .typ _ => b

/-- Operation `GraphBuilder.build_from_entities`: pass 1 adds every
entity as a node and registers its symbols (reconciling external
placeholders); pass 2 builds the edges. -/
def Builder.buildFromEntities (ir : String → String → String → Option String)
    (b : Builder) (entities : List Entity) : Builder :=
  let b := entities.foldl Builder.pass1Step b
  entities.foldl (Builder.buildEdges ir) b

/-- Operation `GraphBuilder.update_file`: remove the file's old nodes
and symbol registrations, then re-run passes 1 and 2 on the new
entities. -/
def Builder.updateFile (ir : String → String → String → Option String)
    (b : Builder) (filePath : String) (entities : List Entity) : Builder :=
  let (g, removed) := b.storage.removeFile filePath
  let st := removed.foldl ScopedSymbolTable.unregister b.symtab
  let b := entities.foldl Builder.pass1Step ⟨g, st⟩
  entities.foldl (Builder.buildEdges ir) b

/-- Test for placeholder-shaped ids: `id` starts with the nine
characters `external:`.  Entity ids have the shape `repo:file_path:…`,
so for any repository not literally named `external` this is false. -/
def isExternalId (id : String) : Bool :=
  id.data.take 9 == "external:".data

/-! ## Sync engine (`embeddings/sync.py`) -/

/-- Result record `SyncResult` (counts are Python ints, so `Int`). -/
@[ext]
structure SyncResult where
  added : Int
  updated : Int
  deleted : Int
  skipped : Int
  errors : List String
deriving DecidableEq

/-- Construction `SyncResult()`. -/
def SyncResult.init : SyncResult := ⟨0, 0, 0, 0, []⟩

/-- Projection of the ChromaDB collection consulted by the sync engine:
the `entity_id → content_hash` map returned by
`ChromaDBStorage.get_content_hashes`, with upsert/delete mirroring
`bulk_upsert` and `delete_embedding`. -/
abbrev Store := List (String × String)

/-- Operation `ChromaDBStorage.bulk_upsert` restricted to the
`content_hash` metadata (ids updated in place or appended). -/
def bulkUpsert (items : List (String × String)) (s : Store) : Store :=
  items.foldl (fun s' p => setAssoc p.1 p.2 s') s

/-- Field `EmbeddingSync.BATCH_SIZE`. -/
def BATCH_SIZE : Nat := 32

/-- Recursion worker for `chunksOf`; the fuel argument (instantiated
with the list length, an upper bound on the number of chunks) makes the
recursion structural. -/
def chunksOfGo (n : Nat) : Nat → List α → List (List α)
  | _, [] => []
  | 0, _ :: _ => []
  | fuel + 1, x :: xs => (x :: xs.take (n - 1)) :: chunksOfGo n fuel (xs.drop (n - 1))

/-- Batching `for i in range(0, len(l), n)` with slices `l[i : i + n]`
(the sync engine only instantiates `n` with `BATCH_SIZE = 32`). -/
def chunksOf (n : Nat) (l : List α) : List (List α) :=
  chunksOfGo n l.length l

/-- Helper `EmbeddingSync._get_file_from_id`: the file-path portion of
an id of shape `repo:file_path:entity_path`. -/
def getFileFromId (id : String) : String :=
  let parts := id.splitOn ":"
  if parts.length ≥ 2 then
    if parts.length > 2 then String.intercalate ":" ((parts.drop 1).dropLast)
    else (parts.get? 1).getD ""
  else ""

/-- Categorisation step of `sync_entities` (the loop over `embeddable`):
new entities (id absent) and changed entities (hash differs) go to
`to_embed` and bump `added` / `updated`; unchanged entities bump
`skipped`. -/
def categorizeStep (h : String → String) (existing : Store)
    (st : List Entity × SyncResult) (e : Entity) : List Entity × SyncResult :=
  match getAssoc e.id existing with
  | none => (st.1 ++ [e], { st.2 with added := st.2.added + 1 })
  | some hx =>
    if hx ≠ e.contentHash h then
      (st.1 ++ [e], { st.2 with updated := st.2.updated + 1 })
    else
      (st.1, { st.2 with skipped := st.2.skipped + 1 })

/-- Error message recorded for one entity of a failed batch. -/
def embedErrorMsg (id msg : String) : String :=
  "Failed to embed " ++ id ++ ": " ++ msg

/-- Batch loop of `sync_entities`.  `fails i = some msg` models
`self._process_batch(batch)` raising an exception rendered as `msg` on
the `i`-th batch; a failed batch records one error per entity and then
rolls its `added` / `updated` contributions back (an entity counts as
`updated` exactly when its id is in `existingIds`).  A successful batch
bulk-upserts `(id, content_hash)`. -/
def runBatchesAll (h : String → String) (fails : Nat → Option String)
    (existingIds : List String) :
    List (Nat × List Entity) → SyncResult × Store → SyncResult × Store
  | [], acc => acc
  | (i, batch) :: rest, (res, store) =>
    match fails i with
    | none =>
      runBatchesAll h fails existingIds rest
        (res, bulkUpsert (batch.map (fun e => (e.id, e.contentHash h))) store)
    | some msg =>
      let res := { res with errors := res.errors ++ batch.map (fun e => embedErrorMsg e.id msg) }
      let res := batch.foldl
        (fun r e =>
          if e.id ∈ existingIds then { r with updated := r.updated - 1 }
          else { r with added := r.added - 1 })
        res
      runBatchesAll h fails existingIds rest (res, store)

/-- Operation `EmbeddingSync.sync_entities`, returning the `SyncResult`
together with the store state after the sync. -/
def syncEntities (h : String → String) (fails : Nat → Option String)
    (store : Store) (entities : List Entity) : SyncResult × Store :=
  let embeddable := entities.filter Entity.isEmbeddable
  let embeddableIds := embeddable.map Entity.id
  let existingHashes := store
  let existingIds := store.map Prod.fst
  let (toEmbed, res) := embeddable.foldl (categorizeStep h existingHashes) ([], SyncResult.init)
  let parsedFiles := entities.map Entity.filePath
  let toDelete := existingIds.filter
    (fun eid => eid ∉ embeddableIds ∧ getFileFromId eid ∈ parsedFiles)
  let (store, res) := toDelete.foldl
    (fun (acc : Store × SyncResult) eid =>
      (delAssoc eid acc.1, { acc.2 with deleted := acc.2.deleted + 1 }))
    (store, res)
  runBatchesAll h fails existingIds ((chunksOf BATCH_SIZE toEmbed).enum) (res, store)

/-- Batch loop of `sync_file`: identical to the one of `sync_entities`
except that a failed batch records the per-entity errors but does *not*
adjust any counts. -/
def runBatchesFile (h : String → String) (fails : Nat → Option String) :
    List (Nat × List Entity) → SyncResult × Store → SyncResult × Store
  | [], acc => acc
  | (i, batch) :: rest, (res, store) =>
    match fails i with
    | none =>
      runBatchesFile h fails rest
        (res, bulkUpsert (batch.map (fun e => (e.id, e.contentHash h))) store)
    | some msg =>
      runBatchesFile h fails rest
        ({ res with errors := res.errors ++ batch.map (fun e => embedErrorMsg e.id msg) }, store)

/-- Categorisation step of `sync_file` (the loop over `embeddable`):
like `categorizeStep`, but the id of every processed entity is also
collected into `current_ids`. -/
def categorizeFileStep (h : String → String) (existingInFile : Store)
    (st : List Entity × List String × SyncResult) (e : Entity) :
    List Entity × List String × SyncResult :=
  let (te, cur, r) := st
  let cur := cur ++ [e.id]
  match getAssoc e.id existingInFile with
  | none => (te ++ [e], cur, { r with added := r.added + 1 })
  | some hx =>
    if hx ≠ e.contentHash h then (te ++ [e], cur, { r with updated := r.updated + 1 })
    else (te, cur, { r with skipped := r.skipped + 1 })

/-- Operation `EmbeddingSync.sync_file`: like `sync_entities`, but the
existing-hash lookup and the removed set are constrained to entities
whose `file_path` (recovered from the id) matches `filePath`. -/
def syncFile (h : String → String) (fails : Nat → Option String)
    (store : Store) (filePath : String) (entities : List Entity) : SyncResult × Store :=
  let embeddable := entities.filter Entity.isEmbeddable
  let existingInFile := store.filter (fun p => getFileFromId p.1 = filePath)
  let (toEmbed, currentIds, res) := embeddable.foldl
    (categorizeFileStep h existingInFile) ([], [], SyncResult.init)
  let toDelete := (existingInFile.map Prod.fst).filter (fun eid => eid ∉ currentIds)
  let (store, res) := toDelete.foldl
    (fun (acc : Store × SyncResult) eid =>
      (delAssoc eid acc.1, { acc.2 with deleted := acc.2.deleted + 1 }))
    (store, res)
  runBatchesFile h fails ((chunksOf BATCH_SIZE toEmbed).enum) (res, store)

/-! ## Extractor entry point (`parser/treesitter.py`, `parse_file`) -/

instance {ε α : Type} [DecidableEq ε] [DecidableEq α] : DecidableEq (Except ε α) := fun x y =>
  match x, y with
  | .ok a, .ok b =>
    if h : a = b then .isTrue (by rw [h]) else .isFalse (by intro hc; cases hc; exact h rfl)
  | .error a, .error b =>
    if h : a = b then .isTrue (by rw [h]) else .isFalse (by intro hc; cases hc; exact h rfl)
  | .ok _, .error _ => .isFalse (by intro hc; cases hc)
  | .error _, .ok _ => .isFalse (by intro hc; cases hc)

/-- View of one on-disk file as consulted by
`TreeSitterParser.parse_file`: the lower-cased path suffix, whether the
path exists, and the outcome of `file_path.read_bytes()` (`.error msg`
models an `OSError`). -/
structure SourceFile where
  suffix : String
  onDisk : Bool
  readBytes : Except String String
deriving DecidableEq

/-- Mapping `EXTENSION_TO_LANGUAGE` from `parser/languages.py`. -/
def extensionToLanguage : List (String × String) :=
  [(".py", "python"), (".pyw", "python"),
   (".ts", "typescript"), (".tsx", "typescript"),
   (".js", "javascript"), (".jsx", "javascript"),
   (".mjs", "javascript"), (".cjs", "javascript"),
   (".go", "go"), (".rs", "rust"), (".java", "java"),
   (".c", "c"), (".h", "c"),
   (".cpp", "cpp"), (".hpp", "cpp"), (".cc", "cpp"),
   (".cxx", "cpp"), (".hxx", "cpp"), (".h++", "cpp"),
   (".dart", "dart")]

/-- Function `get_language_for_file` (on the already-extracted
lower-cased suffix). -/
def getLanguageForFile (suffix : String) : Option String :=
  getAssoc suffix extensionToLanguage

/-- Keys of `LANGUAGE_CONFIGS` (the registry holds a bundle for every
language that appears in `EXTENSION_TO_LANGUAGE`). -/
def languageConfigNames : List String :=
  ["python", "typescript", "javascript", "go", "rust", "java", "c", "cpp", "dart"]

/-- Test `get_language_config(language) is not None`. -/
def hasLanguageConfig (language : String) : Bool :=
  language ∈ languageConfigNames

/-- Operation `TreeSitterParser.parse_file`, with the tree-sitter
extraction pipeline (everything after the successful read) abstracted
as `extract`.  The result type `Except` makes the possible propagation
of an I/O error expressible; the branch for a failed `read_bytes`
follows the source's `except OSError` handler, which logs the error and
returns the empty list. -/
def parseFile (extract : String → String → List Entity) (f : SourceFile) :
    Except String (List Entity) :=
  if ¬ f.onDisk then .ok []
  else
    match getLanguageForFile f.suffix with
    | none => .ok []
    | some language =>
      if ¬ hasLanguageConfig language then .ok []
      else
        match f.readBytes with
        | .error _ => .ok []
        | .ok source => .ok (extract language source)

/-! ## Graph persistence -/

/-- Modelled from the spec: one record of the serialized graph blob.
The `save` method and the `persist_path` constructor argument of
`GraphStorage` are called by `server.py`
(`GraphStorage(persist_path=config.graph_pickle_path)`,
`graph_storage.save()`) but are absent from `graph/storage.py` itself;
the persistence layer is therefore modelled from the spec: "the graph
is serialized to a single on-disk blob on `save()`; reloaded on
startup.  Format is implementation-private; the only requirement is
round-trip fidelity." -/
inductive BlobEntry where
  | node (id : String) (a : NodeAttrs)
  | edge (u v tv : String)
deriving DecidableEq

/-- Modelled from the spec: `GraphStorage.save` serializes the graph to
a single blob — the node records followed by the edge records. -/
def Graph.save (g : Graph) : List BlobEntry :=
  g.nodes.map (fun p => BlobEntry.node p.1 p.2)
    ++ g.edges.map (fun e => BlobEntry.edge e.1 e.2.1 e.2.2)

/-- Modelled from the spec: insertion of one blob record during
reload. -/
def reloadStep (g : Graph) : BlobEntry → Graph
  | .node id a => ⟨g.nodes ++ [(id, a)], g.edges⟩
  | .edge u v tv => ⟨g.nodes, g.edges ++ [(u, v, tv)]⟩

/-- Modelled from the spec: the reload-on-startup operation
reconstructs the graph from the blob records in order. -/
def Graph.reload (blob : List BlobEntry) : Graph :=
  blob.foldl reloadStep Graph.empty

/-! ## Concrete fixtures for witnesses and counterexamples -/

/-- Builder with empty storage and symbol table. -/
def Builder.init : Builder := ⟨Graph.empty, ScopedSymbolTable.empty⟩

/-- Import-resolver stub: every import is external. -/
def irNone : String → String → String → Option String := fun _ _ _ => none

/-- Identity digest used to instantiate the abstract hash in concrete
witnesses. -/
def idDigest : String → String := fun s => s

/-- Fixture: function `f` in `a.py` calling the (initially undefined)
name `g`. -/
def fnF : Function :=
  ⟨"repo", "a.py", "f", 1, 2, "f()", none, "def f(): g()", none, [], ["g"], false⟩

/-- Fixture: function `g` in `b.py`. -/
def fnG : Function :=
  ⟨"repo", "b.py", "g", 1, 2, "g()", none, "def g(): pass", none, [], [], false⟩

/-- Fixture: class `C(A, B)` with two decorators. -/
def clsC1 : Class :=
  ⟨"repo", "c.py", "C", 1, 9, none, "class C(A, B): m1", ["A", "B"], ["dec1", "dec2"], ["m1"]⟩

/-- Fixture: class `C(B, A)` with the decorators swapped and a
different body. -/
def clsC2 : Class :=
  ⟨"repo", "d.py", "C", 3, 20, some "doc", "class C(B, A): m2", ["B", "A"], ["dec2", "dec1"], ["m2"]⟩

/-- Fixture: builder after a build over `[fnF]` alone; `f`'s call to the
still-undefined `g` leaves the placeholder node `external:g` and the
edge `(repo:a.py:f, external:g, calls)`. -/
def bF : Builder := Builder.buildFromEntities irNone Builder.init [Entity.func fnF]

/-- Fixture: `bF`'s graph with the real node for `g` added (but not yet
registered), the situation `_resolve_external_reference` runs in. -/
def gFG : Graph := bF.storage.addEntity (Entity.func fnG)

/-! ## Lemmas about the dictionary model -/

theorem getAssoc_setAssoc_self (k : String) (v : ν) (l : List (String × ν)) :
    getAssoc k (setAssoc k v l) = some v := by
  induction l with
  | nil => simp [setAssoc, getAssoc]
  | cons p rest ih =>
    obtain ⟨k', v'⟩ := p
    by_cases h : k' = k <;> simp [setAssoc, getAssoc, h, ih]

theorem getAssoc_setAssoc_ne {k k' : String} (h : k' ≠ k) (v : ν)
    (l : List (String × ν)) : getAssoc k' (setAssoc k v l) = getAssoc k' l := by
  induction l with
  | nil => simp [setAssoc, getAssoc, Ne.symm h]
  | cons p rest ih =>
    obtain ⟨k'', v''⟩ := p
    by_cases h2 : k'' = k
    · subst h2
      simp [setAssoc, getAssoc, Ne.symm h]
    · by_cases h3 : k'' = k' <;> simp [setAssoc, getAssoc, h2, h3, ih, h, Ne.symm h]

theorem mem_setAssoc_self (k : String) (v : ν) (l : List (String × ν)) :
    (k, v) ∈ setAssoc k v l := by
  induction l with
  | nil => simp [setAssoc]
  | cons p rest ih =>
    obtain ⟨k', v'⟩ := p
    by_cases h : k' = k <;> simp [setAssoc, h, ih]

theorem mem_setAssoc_of_ne {p : String × ν} {k : String} (v : ν)
    {l : List (String × ν)} (hp : p ∈ l) (hk : p.1 ≠ k) :
    p ∈ setAssoc k v l := by
  induction l with
  | nil => cases hp
  | cons q rest ih =>
    obtain ⟨k', v'⟩ := q
    by_cases h : k' = k
    · subst h
      rcases List.mem_cons.1 hp with rfl | hmem
      · exact absurd rfl hk
      · simp [setAssoc, List.mem_cons, hmem]
    · rcases List.mem_cons.1 hp with rfl | hmem
      · simp [setAssoc, h]
      · simp [setAssoc, h, ih hmem]

theorem mem_setAssoc_elim {p : String × ν} {k : String} {v : ν}
    {l : List (String × ν)} (hp : p ∈ setAssoc k v l) :
    p = (k, v) ∨ p ∈ l := by
  induction l with
  | nil => simpa [setAssoc] using hp
  | cons q rest ih =>
    obtain ⟨k', v'⟩ := q
    by_cases h : k' = k
    · subst h
      simp only [setAssoc, if_pos rfl] at hp
      rcases List.mem_cons.1 hp with rfl | hmem
      · exact Or.inl rfl
      · exact Or.inr (List.mem_cons_of_mem _ hmem)
    · simp only [setAssoc, if_neg h] at hp
      rcases List.mem_cons.1 hp with rfl | hmem
      · exact Or.inr (List.mem_cons_self _ _)
      · rcases ih hmem with h1 | h1
        · exact Or.inl h1
        · exact Or.inr (List.mem_cons_of_mem _ h1)

theorem getAssoc_eq_none_iff {k : String} {l : List (String × ν)} :
    getAssoc k l = none ↔ ∀ v, (k, v) ∉ l := by
  induction l with
  | nil => simp [getAssoc]
  | cons p rest ih =>
    obtain ⟨k', v'⟩ := p
    by_cases h : k' = k
    · subst h
      constructor
      · intro hfalse
        simp [getAssoc] at hfalse
      · intro hall
        exact absurd (List.mem_cons_self _ _) (hall v')
    · simp [getAssoc, h, ih, Ne.symm h]

theorem getAssoc_isSome_of_mem {k : String} {v : ν} {l : List (String × ν)}
    (h : (k, v) ∈ l) : (getAssoc k l).isSome = true := by
  cases hg : getAssoc k l with
  | some w => rfl
  | none => exact absurd h (getAssoc_eq_none_iff.1 hg v)

/-! ## Lemmas about graph storage -/

theorem setEdge_setEdge (u v t1 t2 : String) (es : List (String × String × String)) :
    setEdge u v t2 (setEdge u v t1 es) = setEdge u v t2 es := by
  induction es with
  | nil => simp [setEdge]
  | cons e rest ih =>
    obtain ⟨a, b, c⟩ := e
    by_cases h : a = u ∧ b = v
    · simp [setEdge, h]
    · simp [setEdge, h, ih]

theorem addEdge_nodes (g : Graph) (u v : String) (t : EdgeType) :
    (g.addEdge u v t).nodes = g.nodes := by
  unfold Graph.addEdge Graph.addEdgeRaw
  split <;> rfl

theorem addEdge_addEdge (g : Graph) (u v : String) (t1 t2 : EdgeType) :
    (g.addEdge u v t1).addEdge u v t2 = g.addEdge u v t2 := by
  by_cases hc : (getAssoc u g.nodes).isSome = true ∧ (getAssoc v g.nodes).isSome = true
  · simp [Graph.addEdge, Graph.hasNode, Graph.addEdgeRaw, hc, setEdge_setEdge]
  · simp [Graph.addEdge, Graph.hasNode, Graph.addEdgeRaw, hc]

/-- Claim C4, counterexample: after adding nodes for `f` and `g` and the
edge `(f, g, CALLS)`, adding `(f, g, INHERITS)` does *not* leave both
edges present — the CALLS edge is gone, because the storage is a
NetworkX `DiGraph` (simple directed graph), not a multigraph. -/
theorem c4_counterexample :
    ("repo:a.py:f", "repo:b.py:g", "calls") ∉
      ((((Graph.empty.addEntity (.func fnF)).addEntity (.func fnG)).addEdge
          "repo:a.py:f" "repo:b.py:g" EdgeType.calls).addEdge
          "repo:a.py:f" "repo:b.py:g" EdgeType.inherits).edges := by
  decide

/-- Claim C4 (amended): the graph is a *simple* labeled directed graph:
adding an edge `(u, v, t2)` after `(u, v, t1)` leaves the graph in the
same state as a single `add_edge(u, v, t2)` — the second label
overwrites the first, so only one edge per ordered pair survives.  In
particular a duplicate of the same `(from, to, type)` coalesces (the
repeated add is absorbed and the edge set is unchanged). -/
theorem c4_simple_digraph :
    (∀ (g : Graph) (u v : String) (t1 t2 : EdgeType),
        (g.addEdge u v t1).addEdge u v t2 = g.addEdge u v t2) ∧
    (∀ (g : Graph) (u v : String) (t : EdgeType),
        (g.addEdge u v t).addEdge u v t = g.addEdge u v t) :=
  ⟨fun g u v t1 t2 => addEdge_addEdge g u v t1 t2,
   fun g u v t => addEdge_addEdge g u v t t⟩

/-- Claim C9: `add_edge` with a missing endpoint never raises and
leaves the graph completely unchanged (no node created, no edge
added). -/
theorem c9_addEdge_missing_endpoint_noop (g : Graph) (u v : String) (t : EdgeType)
    (h : g.hasNode u = false ∨ g.hasNode v = false) : g.addEdge u v t = g := by
  unfold Graph.addEdge
  rcases h with h | h <;> rw [if_neg] <;> simp [h]

/-- Claim C9, witness: concrete instantiation on the empty graph. -/
theorem c9_witness :
    Graph.empty.hasNode "repo:a.py:f" = false ∧
      Graph.empty.addEdge "repo:a.py:f" "repo:b.py:g" EdgeType.calls = Graph.empty :=
  ⟨by decide,
   c9_addEdge_missing_endpoint_noop Graph.empty "repo:a.py:f" "repo:b.py:g"
     EdgeType.calls (Or.inl (by decide))⟩

/-! ## Persistence round-trip (claim C3) -/

theorem reload_node_records (nl : List (String × NodeAttrs)) (g0 : Graph) :
    List.foldl reloadStep g0 (nl.map (fun p => BlobEntry.node p.1 p.2)) =
      ⟨g0.nodes ++ nl, g0.edges⟩ := by
  induction nl generalizing g0 with
  | nil => simp
  | cons p rest ih =>
    obtain ⟨ns, es⟩ := g0
    simp [reloadStep, ih]

theorem reload_edge_records (el : List (String × String × String)) (g0 : Graph) :
    List.foldl reloadStep g0 (el.map (fun e => BlobEntry.edge e.1 e.2.1 e.2.2)) =
      ⟨g0.nodes, g0.edges ++ el⟩ := by
  induction el generalizing g0 with
  | nil => simp
  | cons e rest ih =>
    obtain ⟨ns, es⟩ := g0
    simp [reloadStep, ih]

theorem reload_save (g : Graph) : Graph.reload g.save = g := by
  obtain ⟨ns, es⟩ := g
  simp only [Graph.save, Graph.reload, List.foldl_append, reload_node_records,
    reload_edge_records, Graph.empty]
  simp [reload_node_records, reload_edge_records]

/-- Claim C3: graph persistence round-trip — `save(); reload(); save()`
produces byte-identical blobs (the blob saved after reloading equals
the original blob; in fact reload restores the exact graph state). -/
theorem c3_save_reload_save (g : Graph) :
    (Graph.reload g.save).save = g.save ∧ Graph.reload g.save = g := by
  refine ⟨?_, reload_save g⟩
  rw [reload_save g]

/-! ## Class content hash (claim C8) -/

theorem insertionSort_eq_of_perm {l l' : List String} (hp : l.Perm l') :
    l.insertionSort (· ≤ ·) = l'.insertionSort (· ≤ ·) :=
  @List.eq_of_perm_of_sorted String (· ≤ ·) _ _ _
    (((List.perm_insertionSort _ l).trans hp).trans (List.perm_insertionSort _ l').symm)
    (List.sorted_insertionSort _ l) (List.sorted_insertionSort _ l')

/-- Claim C8: the content hash of a `Class` is the digest of
`name:sorted(bases):sorted(decorators)`, so two classes with the same
name, the same multiset of base names, and the same multiset of
decorators have equal `content_hash` — regardless of `code`,
`docstring`, `methods`, location or file. -/
theorem c8_class_content_hash (h : String → String) (c1 c2 : Class)
    (hname : c1.name = c2.name) (hb : c1.bases.Perm c2.bases)
    (hd : c1.decorators.Perm c2.decorators) :
    Entity.contentHash h (.cls c1) = Entity.contentHash h (.cls c2) := by
  simp only [Entity.contentHash, classContentHash, hname,
    insertionSort_eq_of_perm hb, insertionSort_eq_of_perm hd]

/-- Claim C8, witness: two concrete classes with permuted bases and
decorators and different bodies hash identically. -/
theorem c8_witness :
    clsC1.code ≠ clsC2.code ∧
      Entity.contentHash idDigest (.cls clsC1) = Entity.contentHash idDigest (.cls clsC2) :=
  ⟨by decide,
   c8_class_content_hash idDigest clsC1 clsC2 (by decide) (by decide) (by decide)⟩

/-! ## Extractor failure modes (claim C6) -/

/-- Claim C6, counterexample: a file that exists, has the supported
`.py` extension, and whose bytes cannot be read (an `OSError` from
`read_bytes`) makes `parse_file` return the empty entity list `ok []` —
the I/O error is caught and logged, *not* propagated to the caller. -/
theorem c6_counterexample :
    parseFile (fun _ _ => []) ⟨".py", true, .error "Permission denied"⟩ =
      Except.ok [] := by
  decide

/-- Claim C6 (amended): `parse_file` returns the empty entity list both
for an unsupported extension and for a file whose bytes cannot be read;
the `OSError` is logged and swallowed, never propagated. -/
theorem c6_parse_file_failure_modes (extract : String → String → List Entity)
    (f : SourceFile) :
    (getLanguageForFile f.suffix = none → parseFile extract f = .ok []) ∧
    (∀ msg, f.readBytes = .error msg → parseFile extract f = .ok []) := by
  constructor
  · intro hlang
    unfold parseFile
    cases hd : f.onDisk <;> simp [hd, hlang]
  · intro msg hread
    unfold parseFile
    cases hd : f.onDisk
    · simp [hd]
    · simp only [hd]
      cases hlang : getLanguageForFile f.suffix with
      | none => simp
      | some lang =>
        by_cases hcfg : hasLanguageConfig lang = true <;> simp [hcfg, hread]

/-- Claim C6, witness: concrete unsupported-extension file and concrete
unreadable file. -/
theorem c6_witness :
    parseFile (fun _ _ => []) ⟨".zig", true, .ok "const x = 1;"⟩ = Except.ok [] ∧
      parseFile (fun _ _ => []) ⟨".go", true, .error "EACCES"⟩ = Except.ok [] :=
  ⟨(c6_parse_file_failure_modes (fun _ _ => []) ⟨".zig", true, .ok "const x = 1;"⟩).1 (by decide),
   (c6_parse_file_failure_modes (fun _ _ => []) ⟨".go", true, .error "EACCES"⟩).2 "EACCES" rfl⟩

/-! ## remove_file frame property (claim C10) -/

theorem getAssoc_isSome_iff_mem {k : String} {l : List (String × ν)} :
    (getAssoc k l).isSome = true ↔ ∃ v, (k, v) ∈ l := by
  constructor
  · intro hs
    by_contra hb
    push_neg at hb
    rw [getAssoc_eq_none_iff.2 hb] at hs
    simp at hs
  · rintro ⟨v, hv⟩
    exact getAssoc_isSome_of_mem hv

theorem nodup_keys_eq {l : List (String × ν)} (hnodup : (l.map Prod.fst).Nodup)
    {p q : String × ν} (hp : p ∈ l) (hq : q ∈ l) (hk : p.1 = q.1) : p = q := by
  induction l with
  | nil => cases hp
  | cons x rest ih =>
    simp only [List.map_cons, List.nodup_cons] at hnodup
    rcases List.mem_cons.1 hp with rfl | hp2
    · rcases List.mem_cons.1 hq with rfl | hq2
      · rfl
      · exact absurd (hk ▸ List.mem_map_of_mem Prod.fst hq2) hnodup.1
    · rcases List.mem_cons.1 hq with rfl | hq2
      · exact absurd (hk ▸ List.mem_map_of_mem Prod.fst hp2) hnodup.1
      · exact ih hnodup.2 hp2 hq2

theorem removeNode_of_hasNode {g : Graph} {id : String} (h : g.hasNode id = true) :
    g.removeNode id =
      ⟨g.nodes.filter (fun p => p.1 ≠ id),
       g.edges.filter (fun e => e.1 ≠ id ∧ e.2.1 ≠ id)⟩ := by
  unfold Graph.removeNode
  rw [if_pos h]

theorem foldl_removeNode (ids : List String) (g : Graph)
    (hnodup : ids.Nodup) (hpresent : ∀ id ∈ ids, (getAssoc id g.nodes).isSome = true) :
    ids.foldl (fun g' id => g'.removeNode id) g =
      ⟨g.nodes.filter (fun p => p.1 ∉ ids),
       g.edges.filter (fun e => e.1 ∉ ids ∧ e.2.1 ∉ ids)⟩ := by
  induction ids generalizing g with
  | nil =>
    simp only [List.foldl_nil, List.not_mem_nil, not_false_eq_true]
    obtain ⟨ns, es⟩ := g
    simp
  | cons id rest ih =>
    simp only [List.nodup_cons] at hnodup
    have hpres : g.hasNode id = true := hpresent id (List.mem_cons_self _ _)
    rw [List.foldl_cons, removeNode_of_hasNode hpres]
    rw [ih _ hnodup.2]
    · simp only [Graph.mk.injEq]
      constructor
      · rw [List.filter_filter]
        apply List.filter_congr
        intro p _
        simp [List.mem_cons, not_or, Bool.and_comm]
      · rw [List.filter_filter]
        apply List.filter_congr
        intro e _
        rw [← Bool.decide_and]
        exact decide_eq_decide.2 (by simp only [List.mem_cons, not_or]; tauto)
    · intro id2 hid2
      have hs := hpresent id2 (List.mem_cons_of_mem _ hid2)
      rcases getAssoc_isSome_iff_mem.1 hs with ⟨v, hv⟩
      apply getAssoc_isSome_of_mem (v := v)
      apply List.mem_filter.2
      refine ⟨hv, ?_⟩
      have : id2 ≠ id := fun hc => hnodup.1 (hc ▸ hid2)
      simpa using this

theorem mem_removed_iff {g : Graph} {p : String}
    (hnodup : (g.nodes.map Prod.fst).Nodup) {q : String × NodeAttrs} (hq : q ∈ g.nodes) :
    q.1 ∈ (g.removeFile p).2 ↔ q.2.file_path = some p := by
  unfold Graph.removeFile Graph.getEntitiesByFile
  simp only [List.mem_map]
  constructor
  · rintro ⟨q', hq', hk⟩
    have hq'mem := List.mem_filter.1 hq'
    have : q' = q := nodup_keys_eq hnodup hq'mem.1 hq hk
    subst this
    simpa using hq'mem.2
  · intro hfp
    exact ⟨q, List.mem_filter.2 ⟨hq, by simpa using hfp⟩, rfl⟩

/-- Claim C10: `remove_file(p)` removes exactly the nodes whose stored
`file_path` attribute equals `p` (with their incident edges) and
returns the list of their ids; every other node — including external
placeholders, which have no `file_path` — and every edge between two
surviving nodes is left unchanged.  (The node list of an actual
`DiGraph` has unique keys, hence the `Nodup` hypothesis.) -/
theorem c10_remove_file_frame (g : Graph) (p : String)
    (hnodup : (g.nodes.map Prod.fst).Nodup) :
    (g.removeFile p).2 = (g.nodes.filter (fun q => q.2.file_path = some p)).map Prod.fst ∧
    (g.removeFile p).1.nodes = g.nodes.filter (fun q => ¬ q.2.file_path = some p) ∧
    (g.removeFile p).1.edges =
      g.edges.filter (fun e => e.1 ∉ (g.removeFile p).2 ∧ e.2.1 ∉ (g.removeFile p).2) := by
  have hremoved : (g.removeFile p).2 =
      (g.nodes.filter (fun q => q.2.file_path = some p)).map Prod.fst := rfl
  have hsub : (g.removeFile p).2.Nodup := by
    rw [hremoved]
    exact List.Nodup.sublist (List.Sublist.map Prod.fst (List.filter_sublist _)) hnodup
  have hpres : ∀ id ∈ (g.removeFile p).2, (getAssoc id g.nodes).isSome = true := by
    intro id hid
    rw [hremoved] at hid
    rcases List.mem_map.1 hid with ⟨q, hq, hk⟩
    have hqmem := (List.mem_filter.1 hq).1
    subst hk
    rcases q with ⟨k, a⟩
    exact getAssoc_isSome_of_mem hqmem
  have hfold : (g.removeFile p).1 =
      ⟨g.nodes.filter (fun q => q.1 ∉ (g.removeFile p).2),
       g.edges.filter (fun e => e.1 ∉ (g.removeFile p).2 ∧ e.2.1 ∉ (g.removeFile p).2)⟩ := by
    have := foldl_removeNode (g.removeFile p).2 g hsub hpres
    exact this
  refine ⟨hremoved, ?_, ?_⟩
  · rw [hfold]
    apply List.filter_congr
    intro q hq
    have hiff := mem_removed_iff (p := p) hnodup hq
    simp only [decide_not]
    exact congrArg (fun b => !b) (decide_eq_decide.2 hiff)
  · rw [hfold]

/-- Claim C10, witness: two functions in different files; removing
`a.py` removes exactly `f`'s node and returns its id. -/
theorem c10_witness :
    (((Graph.empty.addEntity (.func fnF)).addEntity (.func fnG)).removeFile "a.py").2 =
      ((((Graph.empty.addEntity (.func fnF)).addEntity (.func fnG)).nodes.filter
          (fun q => q.2.file_path = some "a.py")).map Prod.fst) ∧
    (((Graph.empty.addEntity (.func fnF)).addEntity (.func fnG)).removeFile "a.py").1.nodes =
      ((Graph.empty.addEntity (.func fnF)).addEntity (.func fnG)).nodes.filter
        (fun q => ¬ q.2.file_path = some "a.py") ∧
    (((Graph.empty.addEntity (.func fnF)).addEntity (.func fnG)).removeFile "a.py").1.edges =
      ((Graph.empty.addEntity (.func fnF)).addEntity (.func fnG)).edges.filter
        (fun e => e.1 ∉ (((Graph.empty.addEntity (.func fnF)).addEntity (.func fnG)).removeFile "a.py").2 ∧
          e.2.1 ∉ (((Graph.empty.addEntity (.func fnF)).addEntity (.func fnG)).removeFile "a.py").2) :=
  c10_remove_file_frame ((Graph.empty.addEntity (.func fnF)).addEntity (.func fnG)) "a.py"
    (by decide)

/-! ## Symbol-table unregister (claim C7) -/

theorem getAssoc_delAssoc_self (k : String) (l : List (String × ν)) :
    getAssoc k (delAssoc k l) = none := by
  rw [getAssoc_eq_none_iff]
  intro v hv
  have := List.mem_filter.1 hv
  simp at this

theorem getAssoc_delAssoc_ne {k k' : String} (h : k' ≠ k) (l : List (String × ν)) :
    getAssoc k' (delAssoc k l) = getAssoc k' l := by
  induction l with
  | nil => rfl
  | cons p rest ih =>
    obtain ⟨k'', v''⟩ := p
    simp only [delAssoc, decide_not] at ih
    by_cases h2 : k'' = k
    · subst h2
      simp [delAssoc, getAssoc, Ne.symm h, ih]
    · by_cases h3 : k'' = k' <;> simp [delAssoc, getAssoc, h2, h3, ih, Ne.symm h, h]

theorem getAssoc_map_value (F : ν → ν) (f : String) (l : List (String × ν)) :
    getAssoc f (l.map (fun p => (p.1, F p.2))) = (getAssoc f l).map F := by
  induction l with
  | nil => rfl
  | cons p rest ih =>
    obtain ⟨k, v⟩ := p
    by_cases h : k = f <;> simp [getAssoc, h, ih]

theorem unregisterStep_global_eq (t : ScopedSymbolTable) (nm : String) :
    t.unregisterStep ("global", nm) = { t with global_scope := delAssoc nm t.global_scope } := by
  simp [ScopedSymbolTable.unregisterStep]

theorem unregisterStep_qualified_eq (t : ScopedSymbolTable) (nm : String) :
    t.unregisterStep ("qualified", nm) =
      { t with qualified_names := delAssoc nm t.qualified_names } := by
  simp [ScopedSymbolTable.unregisterStep]

theorem unregisterStep_file_eq (t : ScopedSymbolTable) (nm : String) :
    t.unregisterStep ("file", nm) =
      { t with file_scopes := t.file_scopes.map (fun p => (p.1, delAssoc nm p.2)) } := by
  simp [ScopedSymbolTable.unregisterStep]

theorem unregisterStep_global_of_ne (t : ScopedSymbolTable) (p : String × String)
    (m : String) (h : p ≠ ("global", m)) :
    getAssoc m (t.unregisterStep p).global_scope = getAssoc m t.global_scope := by
  obtain ⟨tag, nm⟩ := p
  by_cases h1 : tag = "global"
  · subst h1
    have hnm : nm ≠ m := fun hc => h (by rw [hc])
    rw [unregisterStep_global_eq]
    exact getAssoc_delAssoc_ne (Ne.symm hnm) _
  · unfold ScopedSymbolTable.unregisterStep
    by_cases h2 : tag = "qualified" <;> by_cases h3 : tag = "file" <;> simp [h1, h2, h3]

theorem unregisterStep_global_none (t : ScopedSymbolTable) (p : String × String)
    (m : String) (h : getAssoc m t.global_scope = none) :
    getAssoc m (t.unregisterStep p).global_scope = none := by
  by_cases hp : p = ("global", m)
  · subst hp
    rw [unregisterStep_global_eq]
    exact getAssoc_delAssoc_self _ _
  · rw [unregisterStep_global_of_ne t p m hp, h]

theorem unregisterStep_qualified_of_ne (t : ScopedSymbolTable) (p : String × String)
    (m : String) (h : p ≠ ("qualified", m)) :
    getAssoc m (t.unregisterStep p).qualified_names = getAssoc m t.qualified_names := by
  obtain ⟨tag, nm⟩ := p
  by_cases h2 : tag = "qualified"
  · subst h2
    have hnm : nm ≠ m := fun hc => h (by rw [hc])
    rw [unregisterStep_qualified_eq]
    exact getAssoc_delAssoc_ne (Ne.symm hnm) _
  · unfold ScopedSymbolTable.unregisterStep
    by_cases h1 : tag = "global" <;> by_cases h3 : tag = "file" <;> simp [h1, h2, h3]

theorem unregisterStep_qualified_none (t : ScopedSymbolTable) (p : String × String)
    (m : String) (h : getAssoc m t.qualified_names = none) :
    getAssoc m (t.unregisterStep p).qualified_names = none := by
  by_cases hp : p = ("qualified", m)
  · subst hp
    rw [unregisterStep_qualified_eq]
    exact getAssoc_delAssoc_self _ _
  · rw [unregisterStep_qualified_of_ne t p m hp, h]

theorem unregisterStep_file_of_ne (t : ScopedSymbolTable) (p : String × String)
    (f m : String) (h : p ≠ ("file", m)) :
    (getAssoc f (t.unregisterStep p).file_scopes).bind (getAssoc m) =
      (getAssoc f t.file_scopes).bind (getAssoc m) := by
  obtain ⟨tag, nm⟩ := p
  by_cases h3 : tag = "file"
  · subst h3
    have hnm : nm ≠ m := fun hc => h (by rw [hc])
    rw [unregisterStep_file_eq]
    show (getAssoc f (t.file_scopes.map (fun p => (p.1, delAssoc nm p.2)))).bind _ = _
    rw [getAssoc_map_value]
    cases getAssoc f t.file_scopes with
    | none => rfl
    | some sc => simp [getAssoc_delAssoc_ne (Ne.symm hnm)]
  · unfold ScopedSymbolTable.unregisterStep
    by_cases h1 : tag = "global" <;> by_cases h2 : tag = "qualified" <;> simp [h1, h2, h3]

theorem unregisterStep_file_self (t : ScopedSymbolTable) (f m : String) :
    (getAssoc f (t.unregisterStep ("file", m)).file_scopes).bind (getAssoc m) = none := by
  rw [unregisterStep_file_eq]
  show (getAssoc f (t.file_scopes.map (fun p => (p.1, delAssoc m p.2)))).bind _ = _
  rw [getAssoc_map_value]
  cases getAssoc f t.file_scopes with
  | none => rfl
  | some sc => simp [getAssoc_delAssoc_self]

theorem unregisterStep_file_none (t : ScopedSymbolTable) (p : String × String)
    (f m : String) (h : (getAssoc f t.file_scopes).bind (getAssoc m) = none) :
    (getAssoc f (t.unregisterStep p).file_scopes).bind (getAssoc m) = none := by
  by_cases hp : p = ("file", m)
  · subst hp
    exact unregisterStep_file_self t f m
  · rw [unregisterStep_file_of_ne t p f m hp, h]

theorem fold_unregisterStep_global (entries : List (String × String))
    (t : ScopedSymbolTable) (m : String) :
    (("global", m) ∉ entries →
        getAssoc m (entries.foldl ScopedSymbolTable.unregisterStep t).global_scope =
          getAssoc m t.global_scope) ∧
    (("global", m) ∈ entries →
        getAssoc m (entries.foldl ScopedSymbolTable.unregisterStep t).global_scope = none) := by
  induction entries generalizing t with
  | nil => simp
  | cons p rest ih =>
    constructor
    · intro hnm
      rw [List.mem_cons] at hnm
      push_neg at hnm
      rw [List.foldl_cons, (ih _).1 hnm.2, unregisterStep_global_of_ne _ _ _ (Ne.symm hnm.1)]
    · intro hm
      rw [List.foldl_cons]
      rcases List.mem_cons.1 hm with rfl | hm2
      · by_cases hrest : ("global", m) ∈ rest
        · exact (ih _).2 hrest
        · rw [(ih _).1 hrest, unregisterStep_global_eq]
          exact getAssoc_delAssoc_self _ _
      · exact (ih _).2 hm2

theorem fold_unregisterStep_qualified (entries : List (String × String))
    (t : ScopedSymbolTable) (m : String) :
    (("qualified", m) ∉ entries →
        getAssoc m (entries.foldl ScopedSymbolTable.unregisterStep t).qualified_names =
          getAssoc m t.qualified_names) ∧
    (("qualified", m) ∈ entries →
        getAssoc m (entries.foldl ScopedSymbolTable.unregisterStep t).qualified_names = none) := by
  induction entries generalizing t with
  | nil => simp
  | cons p rest ih =>
    constructor
    · intro hnm
      rw [List.mem_cons] at hnm
      push_neg at hnm
      rw [List.foldl_cons, (ih _).1 hnm.2, unregisterStep_qualified_of_ne _ _ _ (Ne.symm hnm.1)]
    · intro hm
      rw [List.foldl_cons]
      rcases List.mem_cons.1 hm with rfl | hm2
      · by_cases hrest : ("qualified", m) ∈ rest
        · exact (ih _).2 hrest
        · rw [(ih _).1 hrest, unregisterStep_qualified_eq]
          exact getAssoc_delAssoc_self _ _
      · exact (ih _).2 hm2

theorem fold_unregisterStep_file (entries : List (String × String))
    (t : ScopedSymbolTable) (f m : String) :
    (("file", m) ∉ entries →
        (getAssoc f (entries.foldl ScopedSymbolTable.unregisterStep t).file_scopes).bind
            (getAssoc m) =
          (getAssoc f t.file_scopes).bind (getAssoc m)) ∧
    (("file", m) ∈ entries →
        (getAssoc f (entries.foldl ScopedSymbolTable.unregisterStep t).file_scopes).bind
            (getAssoc m) = none) := by
  induction entries generalizing t with
  | nil => simp
  | cons p rest ih =>
    constructor
    · intro hnm
      rw [List.mem_cons] at hnm
      push_neg at hnm
      rw [List.foldl_cons, (ih _).1 hnm.2, unregisterStep_file_of_ne _ _ _ _ (Ne.symm hnm.1)]
    · intro hm
      rw [List.foldl_cons]
      rcases List.mem_cons.1 hm with rfl | hm2
      · by_cases hrest : ("file", m) ∈ rest
        · exact (ih _).2 hrest
        · rw [(ih _).1 hrest]
          exact unregisterStep_file_self _ _ _
      · exact (ih _).2 hm2

/-- Claim C7, counterexample: register `foo → e1` in `fileA`, then
`foo → e2` in `fileB`; `unregister("e1")` pops `foo` from *every* file
scope and from the global scope, so the binding registered by the
different entity `e2` does not survive: resolving `foo` from `fileB`
now yields nothing instead of `e2`. -/
theorem c7_counterexample :
    (((ScopedSymbolTable.empty.register "e1" "foo" "fileA" none true).register
        "e2" "foo" "fileB" none true).unregister "e1").resolve "foo" (some "fileB") =
      none := by
  decide

/-- Claim C7 (amended): `unregister(entity_id)` replays exactly the
`(scope, key)` pairs recorded in the reverse index for the entity: a
recorded global or qualified key is popped from the corresponding map
(regardless of which entity currently owns the binding), and a recorded
file key is popped from **every** file scope — not only the scopes the
entity was registered in; any binding under a key not recorded for the
entity is left untouched, and the entity's reverse-index record is
deleted. -/
theorem c7_unregister_scope_effects (t : ScopedSymbolTable) (eid : String) :
    (∀ m, ("global", m) ∉ (getAssoc eid t.entity_to_names).getD [] →
        getAssoc m (t.unregister eid).global_scope = getAssoc m t.global_scope) ∧
    (∀ m, ("global", m) ∈ (getAssoc eid t.entity_to_names).getD [] →
        getAssoc m (t.unregister eid).global_scope = none) ∧
    (∀ m, ("qualified", m) ∉ (getAssoc eid t.entity_to_names).getD [] →
        getAssoc m (t.unregister eid).qualified_names = getAssoc m t.qualified_names) ∧
    (∀ m, ("qualified", m) ∈ (getAssoc eid t.entity_to_names).getD [] →
        getAssoc m (t.unregister eid).qualified_names = none) ∧
    (∀ f m, ("file", m) ∉ (getAssoc eid t.entity_to_names).getD [] →
        (getAssoc f (t.unregister eid).file_scopes).bind (getAssoc m) =
          (getAssoc f t.file_scopes).bind (getAssoc m)) ∧
    (∀ f m, ("file", m) ∈ (getAssoc eid t.entity_to_names).getD [] →
        (getAssoc f (t.unregister eid).file_scopes).bind (getAssoc m) = none) ∧
    getAssoc eid (t.unregister eid).entity_to_names = none := by
  cases hE : getAssoc eid t.entity_to_names with
  | none =>
    have hu : t.unregister eid = t := by
      unfold ScopedSymbolTable.unregister
      rw [hE]
    rw [hu]
    simp [hE]
  | some entries =>
    have hu : t.unregister eid =
        { entries.foldl ScopedSymbolTable.unregisterStep t with
          entity_to_names :=
            delAssoc eid (entries.foldl ScopedSymbolTable.unregisterStep t).entity_to_names } := by
      unfold ScopedSymbolTable.unregister
      rw [hE]
    rw [hu]
    refine ⟨?_, ?_, ?_, ?_, ?_, ?_, ?_⟩
    · intro m hm
      exact (fold_unregisterStep_global entries t m).1 (by simpa using hm)
    · intro m hm
      exact (fold_unregisterStep_global entries t m).2 (by simpa using hm)
    · intro m hm
      exact (fold_unregisterStep_qualified entries t m).1 (by simpa using hm)
    · intro m hm
      exact (fold_unregisterStep_qualified entries t m).2 (by simpa using hm)
    · intro f m hm
      exact (fold_unregisterStep_file entries t f m).1 (by simpa using hm)
    · intro f m hm
      exact (fold_unregisterStep_file entries t f m).2 (by simpa using hm)
    · exact getAssoc_delAssoc_self _ _

/-- Claim C7, witness: concrete table with two entities; unregistering
`e1` leaves `e2`'s binding under the different key `bar` intact, kills
the `foo` binding in every file scope, and deletes `e1`'s record. -/
theorem c7_witness :
    getAssoc "bar"
        ((((ScopedSymbolTable.empty.register "e1" "foo" "fileA" none true).register
            "e2" "bar" "fileB" none true).unregister "e1")).global_scope =
      getAssoc "bar"
        (((ScopedSymbolTable.empty.register "e1" "foo" "fileA" none true).register
            "e2" "bar" "fileB" none true)).global_scope ∧
    (getAssoc "fileA"
        ((((ScopedSymbolTable.empty.register "e1" "foo" "fileA" none true).register
            "e2" "bar" "fileB" none true).unregister "e1")).file_scopes).bind
        (getAssoc "foo") = none ∧
    getAssoc "e1"
        ((((ScopedSymbolTable.empty.register "e1" "foo" "fileA" none true).register
            "e2" "bar" "fileB" none true).unregister "e1")).entity_to_names = none :=
  ⟨(c7_unregister_scope_effects
      (((ScopedSymbolTable.empty.register "e1" "foo" "fileA" none true).register
          "e2" "bar" "fileB" none true)) "e1").1 "bar" (by decide),
   ((c7_unregister_scope_effects
      (((ScopedSymbolTable.empty.register "e1" "foo" "fileA" none true).register
          "e2" "bar" "fileB" none true)) "e1").2.2.2.2.2.1 "fileA" "foo" (by decide)),
   (c7_unregister_scope_effects
      (((ScopedSymbolTable.empty.register "e1" "foo" "fileA" none true).register
          "e2" "bar" "fileB" none true)) "e1").2.2.2.2.2.2⟩

/-! ## Sync-engine characterisations (claims C2 and C5) -/

theorem bulkUpsert_append (xs ys : List (String × String)) (s : Store) :
    bulkUpsert (xs ++ ys) s = bulkUpsert ys (bulkUpsert xs s) := by
  simp [bulkUpsert, List.foldl_append]

theorem categorize_fold_spec (h : String → String) (store : Store) (es : List Entity)
    (te0 : List Entity) (r0 : SyncResult) :
    es.foldl (categorizeStep h store) (te0, r0) =
      (te0 ++ es.filter (fun e => ¬ getAssoc e.id store = some (e.contentHash h)),
       { r0 with
          added := r0.added + (es.countP (fun e => (getAssoc e.id store).isNone) : Int),
          updated := r0.updated +
            (es.countP (fun e =>
              (getAssoc e.id store).isSome &&
                !decide (getAssoc e.id store = some (e.contentHash h))) : Int),
          skipped := r0.skipped +
            (es.countP (fun e => decide (getAssoc e.id store = some (e.contentHash h))) : Int) }) := by
  induction es generalizing te0 r0 with
  | nil =>
    simp only [List.foldl_nil, List.filter_nil, List.append_nil, List.countP_nil,
      Nat.cast_zero, add_zero]
  | cons e rest ih =>
    rw [List.foldl_cons]
    cases hg : getAssoc e.id store with
    | none =>
      have hne : ¬ getAssoc e.id store = some (e.contentHash h) := by rw [hg]; simp
      rw [show categorizeStep h store (te0, r0) e =
          (te0 ++ [e], { r0 with added := r0.added + 1 }) from by
        unfold categorizeStep; rw [hg]]
      rw [ih]
      refine Prod.ext ?_ ?_
      · simp [List.filter_cons, hne]
      · apply SyncResult.ext <;> simp [List.countP_cons, hg] <;> omega
    | some hx =>
      by_cases hEq : hx = e.contentHash h
      · subst hEq
        have hskip : getAssoc e.id store = some (e.contentHash h) := hg
        rw [show categorizeStep h store (te0, r0) e =
            (te0, { r0 with skipped := r0.skipped + 1 }) from by
          unfold categorizeStep; rw [hg]; simp]
        rw [ih]
        refine Prod.ext ?_ ?_
        · simp [List.filter_cons, hskip]
        · apply SyncResult.ext <;> simp [List.countP_cons, hg] <;> omega
      · have hchg : ¬ getAssoc e.id store = some (e.contentHash h) := by
          rw [hg]; simp [hEq]
        rw [show categorizeStep h store (te0, r0) e =
            (te0 ++ [e], { r0 with updated := r0.updated + 1 }) from by
          unfold categorizeStep; rw [hg]; simp [hEq]]
        rw [ih]
        refine Prod.ext ?_ ?_
        · simp [List.filter_cons, hchg]
        · apply SyncResult.ext <;> simp [List.countP_cons, hg, hEq] <;> omega

theorem delete_fold_spec (ids : List String) (st : Store) (r : SyncResult) :
    ids.foldl
      (fun (acc : Store × SyncResult) eid =>
        (delAssoc eid acc.1, { acc.2 with deleted := acc.2.deleted + 1 }))
      (st, r) =
      (ids.foldl (fun s eid => delAssoc eid s) st,
       { r with deleted := r.deleted + (ids.length : Int) }) := by
  induction ids generalizing st r with
  | nil => simp
  | cons eid rest ih =>
    simp only [List.foldl_cons, ih, List.length_cons]
    refine Prod.ext rfl ?_
    apply SyncResult.ext <;> simp <;> omega

theorem rollback_fold_spec (existIds : List String) (b : List Entity) (r : SyncResult) :
    b.foldl
      (fun r e =>
        if e.id ∈ existIds then { r with updated := r.updated - 1 }
        else { r with added := r.added - 1 })
      r =
      { r with
        added := r.added - (b.countP (fun e => !decide (e.id ∈ existIds)) : Int),
        updated := r.updated - (b.countP (fun e => decide (e.id ∈ existIds)) : Int) } := by
  induction b generalizing r with
  | nil => simp
  | cons e rest ih =>
    rw [List.foldl_cons]
    by_cases hm : e.id ∈ existIds
    · rw [if_pos hm, ih]
      apply SyncResult.ext <;> simp [List.countP_cons, hm] <;> omega
    · rw [if_neg hm, ih]
      apply SyncResult.ext <;> simp [List.countP_cons, hm] <;> omega

theorem runBatchesAll_spec (h : String → String) (fails : Nat → Option String)
    (existIds : List String) (bs : List (Nat × List Entity))
    (res : SyncResult) (store : Store) :
    runBatchesAll h fails existIds bs (res, store) =
      ({ res with
          added := res.added -
            ((bs.filter (fun p => (fails p.1).isSome)).map
              (fun p => (p.2.countP (fun e => !decide (e.id ∈ existIds)) : Int))).sum,
          updated := res.updated -
            ((bs.filter (fun p => (fails p.1).isSome)).map
              (fun p => (p.2.countP (fun e => decide (e.id ∈ existIds)) : Int))).sum,
          errors := res.errors ++
            bs.bind (fun p =>
              match fails p.1 with
              | none => []
              | some msg => p.2.map (fun e => embedErrorMsg e.id msg)) },
       bulkUpsert
         ((bs.filter (fun p => fails p.1 = none)).bind
           (fun p => p.2.map (fun e => (e.id, e.contentHash h))))
         store) := by
  induction bs generalizing res store with
  | nil =>
    refine Prod.ext ?_ ?_
    · apply SyncResult.ext <;> simp [runBatchesAll]
    · simp [runBatchesAll, bulkUpsert]
  | cons p rest ih =>
    obtain ⟨i, b⟩ := p
    cases hf : fails i with
    | none =>
      rw [show runBatchesAll h fails existIds ((i, b) :: rest) (res, store) =
          runBatchesAll h fails existIds rest
            (res, bulkUpsert (b.map (fun e => (e.id, e.contentHash h))) store) from by
        simp only [runBatchesAll, hf]]
      rw [ih]
      refine Prod.ext ?_ ?_
      · apply SyncResult.ext <;> simp [List.filter_cons, hf]
      · simp [List.filter_cons, hf, bulkUpsert_append]
    | some msg =>
      rw [show runBatchesAll h fails existIds ((i, b) :: rest) (res, store) =
          runBatchesAll h fails existIds rest
            (b.foldl
              (fun r e =>
                if e.id ∈ existIds then { r with updated := r.updated - 1 }
                else { r with added := r.added - 1 })
              { res with errors := res.errors ++ b.map (fun e => embedErrorMsg e.id msg) },
             store) from by
        simp only [runBatchesAll, hf]]
      rw [rollback_fold_spec, ih]
      refine Prod.ext ?_ ?_
      · apply SyncResult.ext <;> simp [List.filter_cons, hf] <;> omega
      · simp [List.filter_cons, hf]

theorem runBatchesFile_spec (h : String → String) (fails : Nat → Option String)
    (bs : List (Nat × List Entity)) (res : SyncResult) (store : Store) :
    runBatchesFile h fails bs (res, store) =
      ({ res with
          errors := res.errors ++
            bs.bind (fun p =>
              match fails p.1 with
              | none => []
              | some msg => p.2.map (fun e => embedErrorMsg e.id msg)) },
       bulkUpsert
         ((bs.filter (fun p => fails p.1 = none)).bind
           (fun p => p.2.map (fun e => (e.id, e.contentHash h))))
         store) := by
  induction bs generalizing res store with
  | nil =>
    refine Prod.ext ?_ ?_
    · apply SyncResult.ext <;> simp [runBatchesFile]
    · simp [runBatchesFile, bulkUpsert]
  | cons p rest ih =>
    obtain ⟨i, b⟩ := p
    cases hf : fails i with
    | none =>
      rw [show runBatchesFile h fails ((i, b) :: rest) (res, store) =
          runBatchesFile h fails rest
            (res, bulkUpsert (b.map (fun e => (e.id, e.contentHash h))) store) from by
        simp only [runBatchesFile, hf]]
      rw [ih]
      refine Prod.ext ?_ ?_
      · apply SyncResult.ext <;> simp [List.filter_cons, hf]
      · simp [List.filter_cons, hf, bulkUpsert_append]
    | some msg =>
      rw [show runBatchesFile h fails ((i, b) :: rest) (res, store) =
          runBatchesFile h fails rest
            ({ res with errors := res.errors ++ b.map (fun e => embedErrorMsg e.id msg) },
             store) from by
        simp only [runBatchesFile, hf]]
      rw [ih]
      refine Prod.ext ?_ ?_
      · apply SyncResult.ext <;> simp [List.filter_cons, hf]
      · simp [List.filter_cons, hf]

theorem syncEntities_spec (h : String → String) (fails : Nat → Option String)
    (store : Store) (es : List Entity) :
    syncEntities h fails store es =
      (let embeddable := es.filter Entity.isEmbeddable
       let toEmbed := embeddable.filter
         (fun e => ¬ getAssoc e.id store = some (e.contentHash h))
       let existIds := store.map Prod.fst
       let toDelete := existIds.filter
         (fun eid => eid ∉ embeddable.map Entity.id ∧ getFileFromId eid ∈ es.map Entity.filePath)
       let batches := (chunksOf BATCH_SIZE toEmbed).enum
       let failed := batches.filter (fun p => (fails p.1).isSome)
       ({ added := (embeddable.countP (fun e => (getAssoc e.id store).isNone) : Int) -
            (failed.map (fun p => (p.2.countP (fun e => !decide (e.id ∈ existIds)) : Int))).sum,
          updated := (embeddable.countP (fun e =>
              (getAssoc e.id store).isSome &&
                !decide (getAssoc e.id store = some (e.contentHash h))) : Int) -
            (failed.map (fun p => (p.2.countP (fun e => decide (e.id ∈ existIds)) : Int))).sum,
          deleted := (toDelete.length : Int),
          skipped := (embeddable.countP
            (fun e => decide (getAssoc e.id store = some (e.contentHash h))) : Int),
          errors := batches.bind (fun p =>
            match fails p.1 with
            | none => []
            | some msg => p.2.map (fun e => embedErrorMsg e.id msg)) },
        bulkUpsert
          ((batches.filter (fun p => fails p.1 = none)).bind
            (fun p => p.2.map (fun e => (e.id, e.contentHash h))))
          (toDelete.foldl (fun s eid => delAssoc eid s) store))) := by
  unfold syncEntities
  simp only [categorize_fold_spec, delete_fold_spec, runBatchesAll_spec]
  refine Prod.ext ?_ rfl
  apply SyncResult.ext <;> simp [SyncResult.init]

theorem syncFile_categorize_spec (h : String → String) (existingInFile : Store)
    (es : List Entity) (te0 : List Entity) (cur0 : List String) (r0 : SyncResult) :
    es.foldl (categorizeFileStep h existingInFile) (te0, cur0, r0) =
      (te0 ++ es.filter (fun e => ¬ getAssoc e.id existingInFile = some (e.contentHash h)),
       cur0 ++ es.map Entity.id,
       { r0 with
          added := r0.added +
            (es.countP (fun e => (getAssoc e.id existingInFile).isNone) : Int),
          updated := r0.updated +
            (es.countP (fun e =>
              (getAssoc e.id existingInFile).isSome &&
                !decide (getAssoc e.id existingInFile = some (e.contentHash h))) : Int),
          skipped := r0.skipped +
            (es.countP
              (fun e => decide (getAssoc e.id existingInFile = some (e.contentHash h))) : Int) }) := by
  induction es generalizing te0 cur0 r0 with
  | nil => simp
  | cons e rest ih =>
    rw [List.foldl_cons]
    cases hg : getAssoc e.id existingInFile with
    | none =>
      have hne : ¬ getAssoc e.id existingInFile = some (e.contentHash h) := by rw [hg]; simp
      rw [show categorizeFileStep h existingInFile (te0, cur0, r0) e =
          (te0 ++ [e], cur0 ++ [e.id], { r0 with added := r0.added + 1 }) from by
        unfold categorizeFileStep; rw [hg]]
      rw [ih]
      refine Prod.ext ?_ (Prod.ext ?_ ?_)
      · simp [List.filter_cons, hne]
      · simp
      · apply SyncResult.ext <;> simp [List.countP_cons, hg] <;> omega
    | some hx =>
      by_cases hEq : hx = e.contentHash h
      · subst hEq
        have hskip : getAssoc e.id existingInFile = some (e.contentHash h) := hg
        rw [show categorizeFileStep h existingInFile (te0, cur0, r0) e =
            (te0, cur0 ++ [e.id], { r0 with skipped := r0.skipped + 1 }) from by
          unfold categorizeFileStep; rw [hg]; simp]
        rw [ih]
        refine Prod.ext ?_ (Prod.ext ?_ ?_)
        · simp [List.filter_cons, hskip]
        · simp
        · apply SyncResult.ext <;> simp [List.countP_cons, hg] <;> omega
      · have hchg : ¬ getAssoc e.id existingInFile = some (e.contentHash h) := by
          rw [hg]; simp [hEq]
        rw [show categorizeFileStep h existingInFile (te0, cur0, r0) e =
            (te0 ++ [e], cur0 ++ [e.id], { r0 with updated := r0.updated + 1 }) from by
          unfold categorizeFileStep; rw [hg]; simp [hEq]]
        rw [ih]
        refine Prod.ext ?_ (Prod.ext ?_ ?_)
        · simp [List.filter_cons, hchg]
        · simp
        · apply SyncResult.ext <;> simp [List.countP_cons, hg, hEq] <;> omega

theorem syncFile_spec (h : String → String) (fails : Nat → Option String)
    (store : Store) (filePath : String) (es : List Entity) :
    syncFile h fails store filePath es =
      (let embeddable := es.filter Entity.isEmbeddable
       let existingInFile := store.filter (fun p => getFileFromId p.1 = filePath)
       let toEmbed := embeddable.filter
         (fun e => ¬ getAssoc e.id existingInFile = some (e.contentHash h))
       let toDelete := (existingInFile.map Prod.fst).filter
         (fun eid => eid ∉ embeddable.map Entity.id)
       let batches := (chunksOf BATCH_SIZE toEmbed).enum
       ({ added := (embeddable.countP (fun e => (getAssoc e.id existingInFile).isNone) : Int),
          updated := (embeddable.countP (fun e =>
              (getAssoc e.id existingInFile).isSome &&
                !decide (getAssoc e.id existingInFile = some (e.contentHash h))) : Int),
          deleted := (toDelete.length : Int),
          skipped := (embeddable.countP
            (fun e => decide (getAssoc e.id existingInFile = some (e.contentHash h))) : Int),
          errors := batches.bind (fun p =>
            match fails p.1 with
            | none => []
            | some msg => p.2.map (fun e => embedErrorMsg e.id msg)) },
        bulkUpsert
          ((batches.filter (fun p => fails p.1 = none)).bind
            (fun p => p.2.map (fun e => (e.id, e.contentHash h))))
          (toDelete.foldl (fun s eid => delAssoc eid s) store))) := by
  unfold syncFile
  simp only [syncFile_categorize_spec, delete_fold_spec, runBatchesFile_spec]
  refine Prod.ext ?_ rfl
  apply SyncResult.ext <;> simp [SyncResult.init]

theorem chunksOfGo_fuel_irrel (n : Nat) :
    ∀ (f f' : Nat) (l : List α), l.length ≤ f → l.length ≤ f' →
      chunksOfGo n f l = chunksOfGo n f' l := by
  intro f
  induction f with
  | zero =>
    intro f' l hf hf'
    cases l with
    | nil => cases f' <;> rfl
    | cons x xs => simp at hf
  | succ f ih =>
    intro f' l hf hf'
    cases l with
    | nil => cases f' <;> rfl
    | cons x xs =>
      cases f' with
      | zero => simp at hf'
      | succ f' =>
        simp only [chunksOfGo]
        rw [ih f' (xs.drop (n - 1))
          (by simp only [List.length_drop, List.length_cons] at hf ⊢; omega)
          (by simp only [List.length_drop, List.length_cons] at hf' ⊢; omega)]

theorem chunksOf_cons (n : Nat) (x : α) (xs : List α) :
    chunksOf n (x :: xs) = (x :: xs.take (n - 1)) :: chunksOf n (xs.drop (n - 1)) := by
  unfold chunksOf
  simp only [List.length_cons, chunksOfGo]
  rw [chunksOfGo_fuel_irrel n xs.length (xs.drop (n - 1)).length (xs.drop (n - 1))
    (by simp only [List.length_drop]; omega) le_rfl]

theorem chunksOf_flatten_of_le (n : Nat) :
    ∀ (k : Nat) (l : List α), l.length ≤ k → (chunksOf n l).flatten = l := by
  intro k
  induction k with
  | zero =>
    intro l hl
    cases l with
    | nil => simp [chunksOf, chunksOfGo]
    | cons x xs => simp at hl
  | succ k ih =>
    intro l hl
    cases l with
    | nil => simp [chunksOf, chunksOfGo]
    | cons x xs =>
      rw [chunksOf_cons, List.flatten_cons]
      rw [ih (xs.drop (n - 1)) (by
        simp only [List.length_drop, List.length_cons] at hl ⊢
        omega)]
      simp [List.take_append_drop]

theorem chunksOf_flatten (n : Nat) (l : List α) :
    (chunksOf n l).flatten = l :=
  chunksOf_flatten_of_le n l.length l le_rfl

theorem mem_of_mem_chunksOf {n : Nat} {l : List α} {b : List α} {e : α}
    (hb : b ∈ chunksOf n l) (he : e ∈ b) : e ∈ l := by
  rw [← chunksOf_flatten n l]
  exact List.mem_flatten.2 ⟨b, hb, he⟩

/-- Claim C5, counterexample: a one-entity `sync_file` whose only
embedding batch fails records the per-entity error but does *not* roll
the `added` count back — the result still reports `added = 1` although
nothing was embedded (the claim's rollback would give `added = 0`). -/
theorem c5_counterexample :
    (syncFile idDigest (fun i => if i = 0 then some "boom" else none) [] "a.py"
        [Entity.func fnF]).1.added = 1 ∧
    (syncFile idDigest (fun i => if i = 0 then some "boom" else none) [] "a.py"
        [Entity.func fnF]).1.errors = ["Failed to embed repo:a.py:f: boom"] := by
  decide

/-- Claim C5 (amended): when an embedding batch raises, both sync
operations record one error per entity of the batch and keep processing
the remaining batches (the final store contains exactly the upserts of
the successful batches on top of the deletions); but only
`sync_entities` rolls the failed batch's `added`/`updated` count deltas
back — `sync_file` leaves all counts exactly as in a failure-free run. -/
theorem c5_batch_failure_handling (h : String → String) (fails : Nat → Option String)
    (store : Store) (filePath : String) (es : List Entity) :
    (let embeddable := es.filter Entity.isEmbeddable
     let toEmbed := embeddable.filter
       (fun e => ¬ getAssoc e.id store = some (e.contentHash h))
     let existIds := store.map Prod.fst
     let toDelete := existIds.filter
       (fun eid => eid ∉ embeddable.map Entity.id ∧ getFileFromId eid ∈ es.map Entity.filePath)
     let batches := (chunksOf BATCH_SIZE toEmbed).enum
     let failed := batches.filter (fun p => (fails p.1).isSome)
     let noFail := syncEntities h (fun _ => none) store es
     let r := syncEntities h fails store es
     r.1.added = noFail.1.added -
        (failed.map (fun p => (p.2.countP (fun e => !decide (e.id ∈ existIds)) : Int))).sum ∧
     r.1.updated = noFail.1.updated -
        (failed.map (fun p => (p.2.countP (fun e => decide (e.id ∈ existIds)) : Int))).sum ∧
     r.1.deleted = noFail.1.deleted ∧
     r.1.skipped = noFail.1.skipped ∧
     r.1.errors = noFail.1.errors ++ batches.bind (fun p =>
       match fails p.1 with
       | none => []
       | some msg => p.2.map (fun e => embedErrorMsg e.id msg)) ∧
     r.2 = bulkUpsert
       ((batches.filter (fun p => fails p.1 = none)).bind
         (fun p => p.2.map (fun e => (e.id, e.contentHash h))))
       (toDelete.foldl (fun s eid => delAssoc eid s) store)) ∧
    (let embeddable := es.filter Entity.isEmbeddable
     let existingInFile := store.filter (fun p => getFileFromId p.1 = filePath)
     let toEmbedF := embeddable.filter
       (fun e => ¬ getAssoc e.id existingInFile = some (e.contentHash h))
     let toDeleteF := (existingInFile.map Prod.fst).filter
       (fun eid => eid ∉ embeddable.map Entity.id)
     let batchesF := (chunksOf BATCH_SIZE toEmbedF).enum
     let noFailF := syncFile h (fun _ => none) store filePath es
     let rF := syncFile h fails store filePath es
     rF.1.added = noFailF.1.added ∧
     rF.1.updated = noFailF.1.updated ∧
     rF.1.deleted = noFailF.1.deleted ∧
     rF.1.skipped = noFailF.1.skipped ∧
     rF.1.errors = noFailF.1.errors ++ batchesF.bind (fun p =>
       match fails p.1 with
       | none => []
       | some msg => p.2.map (fun e => embedErrorMsg e.id msg)) ∧
     rF.2 = bulkUpsert
       ((batchesF.filter (fun p => fails p.1 = none)).bind
         (fun p => p.2.map (fun e => (e.id, e.contentHash h))))
       (toDeleteF.foldl (fun s eid => delAssoc eid s) store)) := by
  have hnil : ∀ (bs : List (Nat × List Entity)), (bs.bind fun _ => ([] : List String)) = [] :=
    fun bs => by simp
  constructor
  · simp only [syncEntities_spec]
    simp
  · simp only [syncFile_spec]
    simp

theorem bulkUpsert_cons_of_ne (items : List (String × String)) (k v : String) (s : Store)
    (hne : ∀ p ∈ items, p.1 ≠ k) :
    bulkUpsert items ((k, v) :: s) = (k, v) :: bulkUpsert items s := by
  induction items generalizing s with
  | nil => rfl
  | cons q rest ih =>
    obtain ⟨k', v'⟩ := q
    have hk : k' ≠ k := hne (k', v') (List.mem_cons_self _ _)
    simp only [bulkUpsert, List.foldl_cons]
    rw [show setAssoc k' v' ((k, v) :: s) = (k, v) :: setAssoc k' v' s from by
      simp [setAssoc, hk, Ne.symm hk]]
    exact ih (setAssoc k' v' s) (fun p hp => hne p (List.mem_cons_of_mem _ hp))

theorem bulkUpsert_nil_of_nodup (items : List (String × String))
    (hnodup : (items.map Prod.fst).Nodup) : bulkUpsert items [] = items := by
  induction items with
  | nil => rfl
  | cons q rest ih =>
    obtain ⟨k, v⟩ := q
    simp only [List.map_cons, List.nodup_cons] at hnodup
    simp only [bulkUpsert, List.foldl_cons, setAssoc]
    rw [show List.foldl (fun s' p => setAssoc p.1 p.2 s') [(k, v)] rest =
        bulkUpsert rest [(k, v)] from rfl]
    rw [bulkUpsert_cons_of_ne rest k v []
      (fun p hp hc => hnodup.1 (hc ▸ List.mem_map_of_mem Prod.fst hp))]
    rw [ih hnodup.2]

theorem getAssoc_entity_map {γ : Type} (f : Entity → γ) (l : List Entity)
    (hnodup : (l.map Entity.id).Nodup) (e : Entity) (he : e ∈ l) :
    getAssoc e.id (l.map (fun x => (x.id, f x))) = some (f e) := by
  induction l with
  | nil => cases he
  | cons x rest ih =>
    simp only [List.map_cons, List.nodup_cons] at hnodup
    rcases List.mem_cons.1 he with rfl | he2
    · simp [getAssoc]
    · have hne : x.id ≠ e.id := fun hc => hnodup.1 (hc ▸ List.mem_map_of_mem Entity.id he2)
      simp only [List.map_cons, getAssoc, if_neg hne]
      exact ih hnodup.2 he2

theorem enumFrom_bind_map {γ : Type} (f : Entity → γ) :
    ∀ (i : Nat) (bs : List (List Entity)),
      (List.enumFrom i bs).bind (fun p => p.2.map f) = bs.flatten.map f := by
  intro i bs
  induction bs generalizing i with
  | nil => rfl
  | cons b rest ih =>
    simp only [List.enumFrom, List.flatten_cons, List.map_append]
    rw [show (((i, b) :: List.enumFrom (i + 1) rest).bind fun p => p.2.map f) =
        b.map f ++ (List.enumFrom (i + 1) rest).bind (fun p => p.2.map f) from by
      simp]
    rw [ih (i + 1)]

/-- Claim C2: at-most-once embedding / sync idempotence.  An embeddable
entity whose id is stored with an equal `content_hash` is never placed
in any embedding batch; the `skipped` count is exactly the number of
embeddable entities with a matching stored hash; and running
`sync_entities` a second time over the store produced by a first run
from an empty store (ids being unique) yields
`added = 0, updated = 0, deleted = 0, skipped = N` with no errors. -/
theorem c2_sync_idempotence (h : String → String) (store : Store) (es : List Entity) :
    (∀ e, e ∈ es.filter Entity.isEmbeddable →
        getAssoc e.id store = some (e.contentHash h) →
        ∀ b ∈ chunksOf BATCH_SIZE ((es.filter Entity.isEmbeddable).filter
            (fun e => ¬ getAssoc e.id store = some (e.contentHash h))), e ∉ b) ∧
    ((syncEntities h (fun _ => none) store es).1.skipped =
      ((es.filter Entity.isEmbeddable).countP
        (fun e => decide (getAssoc e.id store = some (e.contentHash h))) : Int)) ∧
    (((es.filter Entity.isEmbeddable).map Entity.id).Nodup →
      (syncEntities h (fun _ => none)
          (syncEntities h (fun _ => none) ([] : Store) es).2 es).1 =
        ⟨0, 0, 0, ((es.filter Entity.isEmbeddable).length : Int), []⟩) := by
  refine ⟨?_, ?_, ?_⟩
  · intro e hemb hhash b hb hcontra
    have := mem_of_mem_chunksOf hb hcontra
    have := (List.mem_filter.1 this).2
    simp [hhash] at this
  · rw [syncEntities_spec]
  · intro hnodup
    have htoEmbed1 : (es.filter Entity.isEmbeddable).filter
        (fun e => ¬ getAssoc e.id ([] : Store) = some (e.contentHash h)) =
        es.filter Entity.isEmbeddable := by
      apply List.filter_eq_self.2
      intro a _
      simp [getAssoc]
    have hstore1 : (syncEntities h (fun _ => none) ([] : Store) es).2 =
        (es.filter Entity.isEmbeddable).map (fun e => (e.id, e.contentHash h)) := by
      rw [syncEntities_spec]
      simp only [htoEmbed1]
      simp only [List.map_nil, List.filter_nil, List.foldl_nil]
      rw [show ∀ (bs : List (Nat × List Entity)), bs.filter (fun p => decide True) = bs from
        fun bs => List.filter_eq_self.2 (fun a _ => rfl)]
      rw [show (chunksOf BATCH_SIZE (es.filter Entity.isEmbeddable)).enum =
          List.enumFrom 0 (chunksOf BATCH_SIZE (es.filter Entity.isEmbeddable)) from rfl]
      rw [enumFrom_bind_map]
      rw [chunksOf_flatten]
      rw [bulkUpsert_nil_of_nodup]
      rw [List.map_map]
      exact hnodup
    rw [syncEntities_spec, hstore1]
    have hget : ∀ e ∈ es.filter Entity.isEmbeddable,
        getAssoc e.id ((es.filter Entity.isEmbeddable).map (fun x => (x.id, x.contentHash h))) =
          some (e.contentHash h) :=
      fun e he => getAssoc_entity_map (fun x => x.contentHash h) _ hnodup e he
    have htoEmbed2 : (es.filter Entity.isEmbeddable).filter
        (fun e => ¬ getAssoc e.id
            ((es.filter Entity.isEmbeddable).map (fun x => (x.id, x.contentHash h))) =
          some (e.contentHash h)) = [] := by
      apply List.filter_eq_nil_iff.2
      intro a ha
      simp [hget a ha]
    have hkeys : ((es.filter Entity.isEmbeddable).map
        (fun x => (x.id, x.contentHash h))).map Prod.fst =
        (es.filter Entity.isEmbeddable).map Entity.id := by
      rw [List.map_map]; rfl
    have htoDelete2 : (((es.filter Entity.isEmbeddable).map
          (fun x => (x.id, x.contentHash h))).map Prod.fst).filter
        (fun eid => eid ∉ (es.filter Entity.isEmbeddable).map Entity.id ∧
          getFileFromId eid ∈ es.map Entity.filePath) = [] := by
      rw [hkeys]
      apply List.filter_eq_nil_iff.2
      intro a ha
      simp [ha]
    have hcnt0 : List.countP (fun e => (getAssoc e.id
        ((es.filter Entity.isEmbeddable).map (fun x => (x.id, x.contentHash h)))).isNone)
        (es.filter Entity.isEmbeddable) = 0 := by
      apply List.countP_eq_zero.2
      intro a ha
      simp [hget a ha]
    have hchg0 : List.countP (fun e =>
        (getAssoc e.id ((es.filter Entity.isEmbeddable).map
          (fun x => (x.id, x.contentHash h)))).isSome &&
        !decide (getAssoc e.id ((es.filter Entity.isEmbeddable).map
          (fun x => (x.id, x.contentHash h))) = some (e.contentHash h)))
        (es.filter Entity.isEmbeddable) = 0 := by
      apply List.countP_eq_zero.2
      intro a ha
      simp [hget a ha]
    have hskipN : List.countP (fun e => decide (getAssoc e.id
        ((es.filter Entity.isEmbeddable).map (fun x => (x.id, x.contentHash h))) =
          some (e.contentHash h)))
        (es.filter Entity.isEmbeddable) = (es.filter Entity.isEmbeddable).length := by
      apply List.countP_eq_length.2
      intro a ha
      simp [hget a ha]
    simp only [htoEmbed2, htoDelete2]
    apply SyncResult.ext <;> simp [hcnt0, hchg0, hskipN, chunksOf, chunksOfGo]

/-- Claim C2, witness: two functions, one of which (`f`) is already
stored with its current hash; `f` lands in no batch, and the
second-run result over a fresh two-entity sync is all-skipped. -/
theorem c2_witness :
    Entity.func fnF ∉ [Entity.func fnG] ∧
    (syncEntities idDigest (fun _ => none)
        (syncEntities idDigest (fun _ => none) ([] : Store)
          [Entity.func fnF, Entity.func fnG]).2
        [Entity.func fnF, Entity.func fnG]).1 =
      ⟨0, 0, 0,
        ((([Entity.func fnF, Entity.func fnG].filter Entity.isEmbeddable).length : Int)), []⟩ :=
  ⟨(c2_sync_idempotence idDigest [("repo:a.py:f", "def f(): g()")]
      [Entity.func fnF, Entity.func fnG]).1
      (Entity.func fnF) (by decide) (by decide) [Entity.func fnG] (by decide),
   (c2_sync_idempotence idDigest [("repo:a.py:f", "def f(): g()")]
      [Entity.func fnF, Entity.func fnG]).2.2 (by decide)⟩

/-! ## External-placeholder reconciliation (claim C1) -/

theorem mem_setEdge_self (u v tv : String) (es : List (String × String × String)) :
    (u, v, tv) ∈ setEdge u v tv es := by
  induction es with
  | nil => simp [setEdge]
  | cons e rest ih =>
    obtain ⟨a, b, c⟩ := e
    by_cases h : a = u ∧ b = v <;> simp [setEdge, h, ih]

theorem mem_setEdge_of_ne {p : String × String × String} {u v : String} (tv : String)
    {es : List (String × String × String)} (hp : p ∈ es)
    (hne : p.1 ≠ u ∨ p.2.1 ≠ v) : p ∈ setEdge u v tv es := by
  induction es with
  | nil => cases hp
  | cons e rest ih =>
    obtain ⟨a, b, c⟩ := e
    by_cases h : a = u ∧ b = v
    · rcases List.mem_cons.1 hp with rfl | hmem
      · rcases hne with hne | hne
        · exact absurd h.1 hne
        · exact absurd h.2 hne
      · simp [setEdge, h, List.mem_cons, hmem]
    · rcases List.mem_cons.1 hp with rfl | hmem
      · simp [setEdge, h]
      · simp [setEdge, h, ih hmem]

theorem mem_setEdge_elim {p : String × String × String} {u v tv : String}
    {es : List (String × String × String)} (hp : p ∈ setEdge u v tv es) :
    p = (u, v, tv) ∨ p ∈ es := by
  induction es with
  | nil => simpa [setEdge] using hp
  | cons e rest ih =>
    obtain ⟨a, b, c⟩ := e
    by_cases h : a = u ∧ b = v
    · simp only [setEdge, if_pos h] at hp
      rcases List.mem_cons.1 hp with rfl | hmem
      · exact Or.inl rfl
      · exact Or.inr (List.mem_cons_of_mem _ hmem)
    · simp only [setEdge, if_neg h] at hp
      rcases List.mem_cons.1 hp with rfl | hmem
      · exact Or.inr (List.mem_cons_self _ _)
      · rcases ih hmem with h1 | h1
        · exact Or.inl h1
        · exact Or.inr (List.mem_cons_of_mem _ h1)

theorem hasNode_iff_exists (g : Graph) (k : String) :
    g.hasNode k = true ↔ ∃ a, (k, a) ∈ g.nodes := by
  unfold Graph.hasNode
  rw [getAssoc_isSome_iff_mem]

theorem not_hasNode_iff (g : Graph) (k : String) :
    g.hasNode k = false ↔ ∀ a, (k, a) ∉ g.nodes := by
  unfold Graph.hasNode
  constructor
  · intro hfalse a ha
    have hnone : getAssoc k g.nodes = none := by
      cases hg : getAssoc k g.nodes with
      | none => rfl
      | some w => rw [hg] at hfalse; simp at hfalse
    exact getAssoc_eq_none_iff.1 hnone a ha
  · intro hall
    rw [getAssoc_eq_none_iff.2 hall]
    rfl

theorem isExternalId_append (s : String) : isExternalId ("external:" ++ s) = true := by
  unfold isExternalId
  rw [String.data_append]
  rw [show (9 : Nat) = "external:".data.length from rfl]
  rw [List.take_left]
  simp

theorem external_append_inj {a b : String} (h : "external:" ++ a = "external:" ++ b) :
    a = b := by
  have hd : ("external:" ++ a).data = ("external:" ++ b).data := by rw [h]
  rw [String.data_append, String.data_append] at hd
  have h2 := List.append_cancel_left hd
  cases a
  cases b
  simp only at h2
  simp [h2]

theorem findByName_ne_none_of_mem {g : Graph} {k : String} {a : NodeAttrs} {n : String}
    (hmem : (k, a) ∈ g.nodes) (hname : a.name = n) : g.findByName n ≠ none := by
  unfold Graph.findByName
  intro hc
  rw [Option.map_eq_none'] at hc
  rw [List.find?_eq_none] at hc
  exact hc (k, a) hmem (by simpa using hname)

theorem hasNode_removeNode_self (g : Graph) (k : String) :
    (g.removeNode k).hasNode k = false := by
  unfold Graph.removeNode
  by_cases h : g.hasNode k = true
  · rw [if_pos h]
    rw [not_hasNode_iff]
    intro a ha
    have := List.mem_filter.1 ha
    simp at this
  · rw [if_neg (by simp [h])]
    simpa using h

theorem foldl_preserve {α β : Type} (P : α → Prop) (f : α → β → α) (l : List β)
    (hstep : ∀ g a, a ∈ l → P g → P (f g a)) :
    ∀ g, P g → P (l.foldl f g) := by
  induction l with
  | nil => intro g hg; simpa using hg
  | cons x rest ih =>
    intro g hg
    rw [List.foldl_cons]
    exact ih (fun g' a ha hg' => hstep g' a (List.mem_cons_of_mem _ ha) hg')
      (f g x) (hstep g x (List.mem_cons_self _ _) hg)

theorem foldl_addEdge_nodes (rid : String) (incoming : List (String × String)) (g : Graph) :
    (incoming.foldl (fun g' p => g'.addEdge p.1 rid (edgeTypeOfValue p.2)) g).nodes =
      g.nodes := by
  induction incoming generalizing g with
  | nil => rfl
  | cons p rest ih =>
    rw [List.foldl_cons, ih, addEdge_nodes]

theorem mem_removeNode_elim {g : Graph} {k : String} {p : String × NodeAttrs}
    (hp : p ∈ (g.removeNode k).nodes) : p ∈ g.nodes := by
  unfold Graph.removeNode at hp
  split at hp
  · exact (List.mem_filter.1 hp).1
  · exact hp

theorem mem_removeNode_of_ne {g : Graph} {k : String} {p : String × NodeAttrs}
    (hp : p ∈ g.nodes) (hne : p.1 ≠ k) : p ∈ (g.removeNode k).nodes := by
  unfold Graph.removeNode
  split
  · exact List.mem_filter.2 ⟨hp, by simpa using hne⟩
  · exact hp

theorem resolveExt_eq_pos {g : Graph} {m : String} (rid : String)
    (hc : g.hasNode ("external:" ++ m) = true) :
    Builder.resolveExternalReference g m rid =
      ((g.getPredecessors ("external:" ++ m)).foldl
        (fun g' p => g'.addEdge p.1 rid (edgeTypeOfValue p.2)) g).removeNode
          ("external:" ++ m) := by
  unfold Builder.resolveExternalReference
  rw [if_pos hc]

theorem resolveExt_eq_neg {g : Graph} {m : String} (rid : String)
    (hc : ¬ g.hasNode ("external:" ++ m) = true) :
    Builder.resolveExternalReference g m rid = g := by
  unfold Builder.resolveExternalReference
  rw [if_neg hc]

theorem resolveExt_nodes_elim {g : Graph} {m rid : String} {p : String × NodeAttrs}
    (hp : p ∈ (Builder.resolveExternalReference g m rid).nodes) : p ∈ g.nodes := by
  by_cases hc : g.hasNode ("external:" ++ m) = true
  · rw [resolveExt_eq_pos rid hc] at hp
    have := mem_removeNode_elim hp
    rwa [foldl_addEdge_nodes] at this
  · rwa [resolveExt_eq_neg rid hc] at hp

theorem resolveExt_no_ext (g : Graph) (m rid : String) (a : NodeAttrs) :
    ("external:" ++ m, a) ∉ (Builder.resolveExternalReference g m rid).nodes := by
  by_cases hc : g.hasNode ("external:" ++ m) = true
  · rw [resolveExt_eq_pos rid hc]
    intro hmem
    have hfalse := hasNode_removeNode_self
      ((g.getPredecessors ("external:" ++ m)).foldl
        (fun g' p => g'.addEdge p.1 rid (edgeTypeOfValue p.2)) g) ("external:" ++ m)
    rw [not_hasNode_iff] at hfalse
    exact hfalse a hmem
  · rw [resolveExt_eq_neg rid hc]
    rw [Bool.not_eq_true] at hc
    exact (not_hasNode_iff g _).1 hc a

theorem resolveExt_mem_preserved {g : Graph} {m rid : String} {p : String × NodeAttrs}
    (hp : p ∈ g.nodes) (hshape : isExternalId p.1 = false) :
    p ∈ (Builder.resolveExternalReference g m rid).nodes := by
  have hne : p.1 ≠ "external:" ++ m := by
    intro hc2
    rw [hc2, isExternalId_append] at hshape
    cases hshape
  by_cases hc : g.hasNode ("external:" ++ m) = true
  · rw [resolveExt_eq_pos rid hc]
    apply mem_removeNode_of_ne
    · rwa [foldl_addEdge_nodes]
    · exact hne
  · rwa [resolveExt_eq_neg rid hc]

theorem addEdgeByName_nodes_elim {g : Graph} {fromId m : String} {t : EdgeType}
    {ci : Bool} {p : String × NodeAttrs}
    (hp : p ∈ (g.addEdgeByName fromId m t ci).nodes) :
    p ∈ g.nodes ∨ (p.1 = "external:" ++ m ∧ g.findByName m = none) := by
  unfold Graph.addEdgeByName at hp
  by_cases hf : g.hasNode fromId = true
  · rw [if_pos hf] at hp
    cases hfind : g.findByName m with
    | some toId =>
      rw [hfind] at hp
      exact Or.inl hp
    | none =>
      rw [hfind] at hp
      cases ci with
      | false => exact Or.inl hp
      | true =>
        simp only [if_pos rfl, Graph.addEdgeRaw, Graph.addNodeRaw] at hp
        rcases mem_setAssoc_elim hp with rfl | hmem
        · exact Or.inr ⟨rfl, rfl⟩
        · exact Or.inl hmem
  · rw [if_neg hf] at hp
    exact Or.inl hp

theorem addEdgeByName_mem_preserved {g : Graph} {fromId m : String} {t : EdgeType}
    {ci : Bool} {p : String × NodeAttrs} (hp : p ∈ g.nodes)
    (hshape : isExternalId p.1 = false) :
    p ∈ (g.addEdgeByName fromId m t ci).nodes := by
  unfold Graph.addEdgeByName
  by_cases hf : g.hasNode fromId = true
  · rw [if_pos hf]
    cases hfind : g.findByName m with
    | some toId => exact hp
    | none =>
      cases ci with
      | false => exact hp
      | true =>
        simp only [if_pos rfl, Graph.addEdgeRaw, Graph.addNodeRaw]
        apply mem_setAssoc_of_ne _ hp
        intro hc
        rw [hc, isExternalId_append] at hshape
        cases hshape
  · rw [if_neg hf]
    exact hp

theorem inv_addEdge {g : Graph} {id0 n : String} (u v : String) (t : EdgeType)
    (hInv : (∃ a, (id0, a) ∈ g.nodes ∧ a.name = n) ∧
      (∀ a, ("external:" ++ n, a) ∉ g.nodes)) :
    (∃ a, (id0, a) ∈ (g.addEdge u v t).nodes ∧ a.name = n) ∧
    (∀ a, ("external:" ++ n, a) ∉ (g.addEdge u v t).nodes) := by
  rw [addEdge_nodes]
  exact hInv

theorem inv_addEdgeByName {g : Graph} {id0 n : String} (fromId m : String) (t : EdgeType)
    (ci : Bool) (hshape : isExternalId id0 = false)
    (hInv : (∃ a, (id0, a) ∈ g.nodes ∧ a.name = n) ∧
      (∀ a, ("external:" ++ n, a) ∉ g.nodes)) :
    (∃ a, (id0, a) ∈ (g.addEdgeByName fromId m t ci).nodes ∧ a.name = n) ∧
    (∀ a, ("external:" ++ n, a) ∉ (g.addEdgeByName fromId m t ci).nodes) := by
  obtain ⟨⟨a0, ha0, hname0⟩, hno⟩ := hInv
  constructor
  · exact ⟨a0, addEdgeByName_mem_preserved ha0 hshape, hname0⟩
  · intro a hmem
    rcases addEdgeByName_nodes_elim hmem with hold | ⟨heq, hfind⟩
    · exact hno a hold
    · have hm : m = n := (external_append_inj heq).symm
      subst hm
      exact findByName_ne_none_of_mem ha0 hname0 hfind

theorem inv_buildEdges (ir : String → String → String → Option String) (b : Builder)
    (e2 : Entity) (id0 n : String) (hshape : isExternalId id0 = false)
    (hInv : (∃ a, (id0, a) ∈ b.storage.nodes ∧ a.name = n) ∧
      (∀ a, ("external:" ++ n, a) ∉ b.storage.nodes)) :
    (∃ a, (id0, a) ∈ (Builder.buildEdges ir b e2).storage.nodes ∧ a.name = n) ∧
    (∀ a, ("external:" ++ n, a) ∉ (Builder.buildEdges ir b e2).storage.nodes) := by
  have hmono : ∀ (P : Graph → Prop), P = (fun g => (∃ a, (id0, a) ∈ g.nodes ∧ a.name = n) ∧
      (∀ a, ("external:" ++ n, a) ∉ g.nodes)) → True := fun _ _ => trivial
  cases e2 with
  | func f =>
    unfold Builder.buildEdges Builder.buildFunctionEdges
    have h1 := foldl_preserve
      (fun g => (∃ a, (id0, a) ∈ g.nodes ∧ a.name = n) ∧
        (∀ a, ("external:" ++ n, a) ∉ g.nodes))
      (fun g call =>
        match b.symtab.resolve call (some f.file_path) with
        | some targetId => g.addEdge (Entity.id (.func f)) targetId .calls
        | none => g.addEdgeByName (Entity.id (.func f)) call .calls true)
      f.calls
      (fun g call _ hg => by
        try dsimp only
        cases b.symtab.resolve call (some f.file_path) with
        | some targetId => exact inv_addEdge _ _ _ hg
        | none => exact inv_addEdgeByName _ _ _ _ hshape hg)
      b.storage hInv
    cases hcn : f.class_name with
    | none => simpa [hcn] using h1
    | some cn =>
      simp only [hcn]
      cases hr : b.symtab.resolve cn (some f.file_path) with
      | none => simpa using h1
      | some classId =>
        simp only
        exact inv_addEdge _ _ _ h1
  | cls c =>
    unfold Builder.buildEdges Builder.buildClassEdges
    exact foldl_preserve
      (fun g => (∃ a, (id0, a) ∈ g.nodes ∧ a.name = n) ∧
        (∀ a, ("external:" ++ n, a) ∉ g.nodes))
      (fun g base =>
        match b.symtab.resolve base (some c.file_path) with
        | some targetId => g.addEdge (Entity.id (.cls c)) targetId .inherits
        | none => g.addEdgeByName (Entity.id (.cls c)) base .inherits true)
      c.bases
      (fun g base _ hg => by
        try dsimp only
        cases b.symtab.resolve base (some c.file_path) with
        | some targetId => exact inv_addEdge _ _ _ hg
        | none => exact inv_addEdgeByName _ _ _ _ hshape hg)
      b.storage hInv
  | file f =>
    unfold Builder.buildEdges Builder.buildFileEdges
    have h1 := foldl_preserve
      (fun g => (∃ a, (id0, a) ∈ g.nodes ∧ a.name = n) ∧
        (∀ a, ("external:" ++ n, a) ∉ g.nodes))
      (fun g eid => if g.hasNode eid = true then g.addEdge (Entity.id (.file f)) eid .defines else g)
      f.defines
      (fun g eid _ hg => by
        try dsimp only
        by_cases hh : g.hasNode eid = true
        · rw [if_pos hh]
          exact inv_addEdge _ _ _ hg
        · rw [if_neg hh]
          exact hg)
      b.storage hInv
    exact foldl_preserve
      (fun g => (∃ a, (id0, a) ∈ g.nodes ∧ a.name = n) ∧
        (∀ a, ("external:" ++ n, a) ∉ g.nodes))
      (fun g im =>
        match Builder.resolveImport ir g im f.file_path f.language with
        | some targetId => g.addEdge (Entity.id (.file f)) targetId .imports
        | none => g.addEdgeByName (Entity.id (.file f)) im .imports true)
      f.imports
      (fun g im _ hg => by
        try dsimp only
        cases Builder.resolveImport ir g im f.file_path f.language with
        | some targetId => exact inv_addEdge _ _ _ hg
        | none => exact inv_addEdgeByName _ _ _ _ hshape hg)
      _ h1
  | typ t =>
    exact hInv

theorem inv_pass1Step_establish (b : Builder) (e : Entity)
    (hreg : e.isEmbeddable = true) (hshape : isExternalId e.id = false) :
    (∃ a, (e.id, a) ∈ (Builder.pass1Step b e).storage.nodes ∧ a.name = e.name) ∧
    (∀ a, ("external:" ++ e.name, a) ∉ (Builder.pass1Step b e).storage.nodes) := by
  have hself : (e.id,
      (⟨e.typeTag, e.name, some e.filePath, some e.startLine, some e.endLine, some e⟩ :
        NodeAttrs)) ∈ (b.storage.addEntity e).nodes :=
    mem_setAssoc_self _ _ _
  cases e with
  | func f =>
    unfold Builder.pass1Step Builder.registerSymbol
    cases hq : f.class_name with
    | none =>
      simp only [hq]
      rw [show Option.map (fun c => c ++ "." ++ f.name) none = none from rfl]
      constructor
      · exact ⟨_, resolveExt_mem_preserved hself hshape, rfl⟩
      · intro a
        exact resolveExt_no_ext _ f.name _ a
    | some cn =>
      simp only [hq]
      rw [show Option.map (fun c => c ++ "." ++ f.name) (some cn) =
        some (cn ++ "." ++ f.name) from rfl]
      constructor
      · exact ⟨_, resolveExt_mem_preserved (resolveExt_mem_preserved hself hshape) hshape,
          rfl⟩
      · intro a hmem
        exact resolveExt_no_ext _ f.name _ a (resolveExt_nodes_elim hmem)
  | cls c =>
    unfold Builder.pass1Step Builder.registerSymbol
    constructor
    · exact ⟨_, resolveExt_mem_preserved hself hshape, rfl⟩
    · intro a
      exact resolveExt_no_ext _ c.name _ a
  | typ t =>
    unfold Builder.pass1Step Builder.registerSymbol
    constructor
    · exact ⟨_, resolveExt_mem_preserved hself hshape, rfl⟩
    · intro a
      exact resolveExt_no_ext _ t.name _ a
  | file f =>
    simp [Entity.isEmbeddable] at hreg

theorem inv_pass1Step_preserve (b : Builder) (e' : Entity) (id0 n : String)
    (hshape0 : isExternalId id0 = false)
    (hid : e'.id = id0 → e'.name = n) (hextid : e'.id ≠ "external:" ++ n)
    (hInv : (∃ a, (id0, a) ∈ b.storage.nodes ∧ a.name = n) ∧
      (∀ a, ("external:" ++ n, a) ∉ b.storage.nodes)) :
    (∃ a, (id0, a) ∈ (Builder.pass1Step b e').storage.nodes ∧ a.name = n) ∧
    (∀ a, ("external:" ++ n, a) ∉ (Builder.pass1Step b e').storage.nodes) := by
  obtain ⟨⟨a0, ha0, hname0⟩, hno⟩ := hInv
  have hadd1 : ∃ a, (id0, a) ∈ (b.storage.addEntity e').nodes ∧ a.name = n := by
    by_cases hid' : e'.id = id0
    · refine ⟨⟨e'.typeTag, e'.name, some e'.filePath, some e'.startLine, some e'.endLine,
        some e'⟩, ?_, hid hid'⟩
      rw [← hid']
      exact mem_setAssoc_self _ _ _
    · exact ⟨a0, mem_setAssoc_of_ne _ ha0
        (fun hc => hid' ((show id0 = e'.id from hc).symm)), hname0⟩
  have hadd2 : ∀ a, ("external:" ++ n, a) ∉ (b.storage.addEntity e').nodes := by
    intro a hmem
    rcases mem_setAssoc_elim hmem with heq | hold
    · exact hextid (congrArg Prod.fst heq).symm
    · exact hno a hold
  have hstep : ∀ (g : Graph),
      ((∃ a, (id0, a) ∈ g.nodes ∧ a.name = n) ∧
        (∀ a, ("external:" ++ n, a) ∉ g.nodes)) →
      ∀ m rid,
      ((∃ a, (id0, a) ∈ (Builder.resolveExternalReference g m rid).nodes ∧ a.name = n) ∧
        (∀ a, ("external:" ++ n, a) ∉ (Builder.resolveExternalReference g m rid).nodes)) := by
    intro g hg m rid
    obtain ⟨⟨a1, ha1, hn1⟩, hno1⟩ := hg
    refine ⟨⟨a1, resolveExt_mem_preserved ha1 hshape0, hn1⟩, ?_⟩
    intro a hmem
    exact hno1 a (resolveExt_nodes_elim hmem)
  cases e' with
  | func f =>
    unfold Builder.pass1Step Builder.registerSymbol
    cases hq : f.class_name with
    | none =>
      simp only [hq]
      rw [show Option.map (fun c => c ++ "." ++ f.name) none = none from rfl]
      exact hstep _ ⟨hadd1, hadd2⟩ _ _
    | some cn =>
      simp only [hq]
      rw [show Option.map (fun c => c ++ "." ++ f.name) (some cn) =
        some (cn ++ "." ++ f.name) from rfl]
      exact hstep _ (hstep _ ⟨hadd1, hadd2⟩ _ _) _ _
  | cls c =>
    unfold Builder.pass1Step Builder.registerSymbol
    exact hstep _ ⟨hadd1, hadd2⟩ _ _
  | typ t =>
    unfold Builder.pass1Step Builder.registerSymbol
    exact hstep _ ⟨hadd1, hadd2⟩ _ _
  | file f =>
    unfold Builder.pass1Step Builder.registerSymbol
    exact ⟨hadd1, hadd2⟩

theorem hasNode_addEdge (g : Graph) (u v : String) (t : EdgeType) (k : String) :
    (g.addEdge u v t).hasNode k = g.hasNode k := by
  unfold Graph.hasNode
  rw [addEdge_nodes]

theorem edgeTypeOfValue_value (ty : EdgeType) : edgeTypeOfValue ty.value = ty := by
  cases ty <;> rfl

theorem filter_fst_nodup (L : List (String × String × String)) (v0 : String)
    (hnodup : (L.map (fun e => (e.1, e.2.1))).Nodup) :
    ((L.filter (fun e => e.2.1 = v0)).map (fun e => e.1)).Nodup := by
  induction L with
  | nil => simp
  | cons e rest ih =>
    simp only [List.map_cons, List.nodup_cons] at hnodup
    rw [List.filter_cons]
    by_cases hv : e.2.1 = v0
    · rw [if_pos (by simpa using hv)]
      rw [List.map_cons, List.nodup_cons]
      refine ⟨?_, ih hnodup.2⟩
      intro hc
      rcases List.mem_map.1 hc with ⟨e', he', hfst⟩
      have he'mem := List.mem_filter.1 he'
      apply hnodup.1
      rw [show (e.1, e.2.1) = (e'.1, e'.2.1) from by
        rw [hfst, hv]
        have : e'.2.1 = v0 := by simpa using he'mem.2
        rw [this]]
      exact List.mem_map_of_mem _ he'mem.1
    · rw [if_neg (by simpa using hv)]
      exact ih hnodup.2

theorem mem_edges_foldl_redirect (realId : String) (inc : List (String × String)) :
    ∀ (g : Graph) (src tv : String),
      (src, tv) ∈ inc → (inc.map Prod.fst).Nodup →
      (∀ q ∈ inc, g.hasNode q.1 = true) → g.hasNode realId = true →
      (src, realId, (edgeTypeOfValue tv).value) ∈
        (inc.foldl (fun g' p => g'.addEdge p.1 realId (edgeTypeOfValue p.2)) g).edges := by
  induction inc with
  | nil => intro g src tv hmem; cases hmem
  | cons q rest ih =>
    intro g src tv hmem hnodup hall hreal
    obtain ⟨s0, t0⟩ := q
    simp only [List.map_cons, List.nodup_cons] at hnodup
    rw [List.foldl_cons]
    rcases List.mem_cons.1 hmem with heq | hmem2
    · obtain ⟨hsrc, htv⟩ := Prod.mk.injEq .. ▸ heq
      subst hsrc
      subst htv
      have hpresent : (src, realId, (edgeTypeOfValue tv).value) ∈
          (g.addEdge src realId (edgeTypeOfValue tv)).edges := by
        unfold Graph.addEdge
        rw [if_pos ⟨hall (src, tv) (List.mem_cons_self _ _), hreal⟩]
        exact mem_setEdge_self _ _ _ _
      exact foldl_preserve
        (fun (g' : Graph) => (src, realId, (edgeTypeOfValue tv).value) ∈ g'.edges)
        (fun (g' : Graph) (p : String × String) => g'.addEdge p.1 realId (edgeTypeOfValue p.2))
        rest
        (fun g' p hp hmem' => by
          have hne : src ≠ p.1 := by
            intro hc
            exact hnodup.1 (hc ▸ List.mem_map_of_mem Prod.fst hp)
          dsimp only at hmem' ⊢
          unfold Graph.addEdge
          split
          · exact mem_setEdge_of_ne _ hmem' (Or.inl hne)
          · exact hmem')
        _ hpresent
    · exact ih (g.addEdge s0 realId (edgeTypeOfValue t0)) src tv hmem2 hnodup.2
        (fun q hq => by rw [hasNode_addEdge]; exact hall q (List.mem_cons_of_mem _ hq))
        (by rw [hasNode_addEdge]; exact hreal)

theorem mem_removeNode_edges_of_ne {g : Graph} {k : String}
    {e : String × String × String} (he : e ∈ g.edges) (h1 : e.1 ≠ k) (h2 : e.2.1 ≠ k) :
    e ∈ (g.removeNode k).edges := by
  unfold Graph.removeNode
  split
  · exact List.mem_filter.2 ⟨he, by simp [h1, h2]⟩
  · exact he

theorem resolveExt_redirects (g : Graph) (name realId : String)
    (hWfSrc : ∀ e ∈ g.edges, g.hasNode e.1 = true)
    (hWfTgt : ∀ e ∈ g.edges, g.hasNode e.2.1 = true)
    (hNodupE : (g.edges.map (fun e => (e.1, e.2.1))).Nodup)
    (hReal : g.hasNode realId = true)
    (hNe : realId ≠ "external:" ++ name)
    (hNoOut : ∀ v t, ("external:" ++ name, v, t) ∉ g.edges) :
    (Builder.resolveExternalReference g name realId).hasNode ("external:" ++ name) = false ∧
    (∀ src (ty : EdgeType), (src, "external:" ++ name, ty.value) ∈ g.edges →
      (src, realId, ty.value) ∈ (Builder.resolveExternalReference g name realId).edges) := by
  constructor
  · by_cases hc : g.hasNode ("external:" ++ name) = true
    · rw [resolveExt_eq_pos realId hc]
      exact hasNode_removeNode_self _ _
    · rw [resolveExt_eq_neg realId hc]
      simpa using hc
  · intro src ty hmem
    have hext : g.hasNode ("external:" ++ name) = true :=
      hWfTgt (src, "external:" ++ name, ty.value) hmem
    rw [resolveExt_eq_pos realId hext]
    have hsrc_ne : src ≠ "external:" ++ name := by
      intro hc
      exact hNoOut ("external:" ++ name) ty.value (hc ▸ hmem)
    have hinc : (src, ty.value) ∈ g.getPredecessors ("external:" ++ name) := by
      unfold Graph.getPredecessors
      exact List.mem_map.2 ⟨(src, "external:" ++ name, ty.value),
        List.mem_filter.2 ⟨hmem, by simp⟩, rfl⟩
    have hfold := mem_edges_foldl_redirect realId (g.getPredecessors ("external:" ++ name))
      g src ty.value hinc
      (by
        unfold Graph.getPredecessors
        rw [List.map_map]
        exact filter_fst_nodup g.edges ("external:" ++ name) hNodupE)
      (by
        intro q hq
        unfold Graph.getPredecessors at hq
        rcases List.mem_map.1 hq with ⟨e', he', hq'⟩
        rw [← hq']
        exact hWfSrc e' (List.mem_filter.1 he').1)
      hReal
    rw [edgeTypeOfValue_value] at hfold
    exact mem_removeNode_edges_of_ne hfold hsrc_ne hNe

theorem inv_pass1_fold (e : Entity)
    (hreg : e.isEmbeddable = true) (hshape : isExternalId e.id = false) :
    ∀ (entities : List Entity) (b : Builder),
      e ∈ entities →
      (∀ e' ∈ entities, e'.id = e.id → e'.name = e.name) →
      (∀ e' ∈ entities, e'.id ≠ "external:" ++ e.name) →
      (∃ a, (e.id, a) ∈ (entities.foldl Builder.pass1Step b).storage.nodes ∧
        a.name = e.name) ∧
      (∀ a, ("external:" ++ e.name, a) ∉
        (entities.foldl Builder.pass1Step b).storage.nodes) := by
  intro entities
  induction entities with
  | nil => intro b he; cases he
  | cons x rest ih =>
    intro b he hid hextid
    rw [List.foldl_cons]
    rcases List.mem_cons.1 he with heq | hmem
    · subst heq
      exact foldl_preserve
        (fun (b' : Builder) =>
          (∃ a, (e.id, a) ∈ b'.storage.nodes ∧ a.name = e.name) ∧
          (∀ a, ("external:" ++ e.name, a) ∉ b'.storage.nodes))
        Builder.pass1Step rest
        (fun b' e' he' hInv => inv_pass1Step_preserve b' e' e.id e.name hshape
          (hid e' (List.mem_cons_of_mem _ he'))
          (hextid e' (List.mem_cons_of_mem _ he')) hInv)
        _ (inv_pass1Step_establish b e hreg hshape)
    · exact ih (Builder.pass1Step b x) hmem
        (fun e' h => hid e' (List.mem_cons_of_mem _ h))
        (fun e' h => hextid e' (List.mem_cons_of_mem _ h))

theorem inv_pass2_fold (ir : String → String → String → Option String)
    (id0 n : String) (hshape : isExternalId id0 = false)
    (entities : List Entity) (b : Builder)
    (hInv : (∃ a, (id0, a) ∈ b.storage.nodes ∧ a.name = n) ∧
      (∀ a, ("external:" ++ n, a) ∉ b.storage.nodes)) :
    (∃ a, (id0, a) ∈ (entities.foldl (Builder.buildEdges ir) b).storage.nodes ∧
      a.name = n) ∧
    (∀ a, ("external:" ++ n, a) ∉
      (entities.foldl (Builder.buildEdges ir) b).storage.nodes) :=
  foldl_preserve
    (fun (b' : Builder) =>
      (∃ a, (id0, a) ∈ b'.storage.nodes ∧ a.name = n) ∧
      (∀ a, ("external:" ++ n, a) ∉ b'.storage.nodes))
    (Builder.buildEdges ir) entities
    (fun b' e2 _ hInv' => inv_buildEdges ir b' e2 id0 n hshape hInv')
    b hInv

/-- **C1.** Unresolved-reference reconciliation.  Part 1
(`_resolve_external_reference`): on a wellformed graph (edge endpoints
are nodes, at most one edge per ordered node pair) with a placeholder
that has no outgoing edges, resolving `external:name` to a real node
`realId` deletes the placeholder node and redirects every incoming edge
`(src, external:name, t)` to `(src, realId, t)` with its type kept.
Part 2 (`build_from_entities`) and Part 3 (`update_file`): after a full
two-pass build over `entities`, no `external:<name>` placeholder
survives for the name of any registered (embeddable, non-placeholder-id)
entity of the batch — registration itself resolves and deletes the
placeholder, and pass 2's `add_edge_by_name` finds the real node by
name first, so it never recreates it. -/
theorem c1_external_reconciliation :
    (∀ (g : Graph) (name realId : String),
      (∀ e ∈ g.edges, g.hasNode e.1 = true) →
      (∀ e ∈ g.edges, g.hasNode e.2.1 = true) →
      (g.edges.map (fun e => (e.1, e.2.1))).Nodup →
      g.hasNode realId = true →
      realId ≠ "external:" ++ name →
      (∀ v t, ("external:" ++ name, v, t) ∉ g.edges) →
      (Builder.resolveExternalReference g name realId).hasNode
        ("external:" ++ name) = false ∧
      (∀ src (ty : EdgeType), (src, "external:" ++ name, ty.value) ∈ g.edges →
        (src, realId, ty.value) ∈
          (Builder.resolveExternalReference g name realId).edges)) ∧
    (∀ (ir : String → String → String → Option String) (b : Builder)
        (entities : List Entity) (e : Entity),
      e ∈ entities → e.isEmbeddable = true → isExternalId e.id = false →
      (∀ e' ∈ entities, e'.id = e.id → e'.name = e.name) →
      (∀ e' ∈ entities, e'.id ≠ "external:" ++ e.name) →
      (Builder.buildFromEntities ir b entities).storage.hasNode
        ("external:" ++ e.name) = false) ∧
    (∀ (ir : String → String → String → Option String) (b : Builder)
        (filePath : String) (entities : List Entity) (e : Entity),
      e ∈ entities → e.isEmbeddable = true → isExternalId e.id = false →
      (∀ e' ∈ entities, e'.id = e.id → e'.name = e.name) →
      (∀ e' ∈ entities, e'.id ≠ "external:" ++ e.name) →
      (Builder.updateFile ir b filePath entities).storage.hasNode
        ("external:" ++ e.name) = false) := by
  refine ⟨?_, ?_, ?_⟩
  · intro g name realId h1 h2 h3 h4 h5 h6
    exact resolveExt_redirects g name realId h1 h2 h3 h4 h5 h6
  · intro ir b entities e he hreg hshape hid hextid
    unfold Builder.buildFromEntities
    rw [not_hasNode_iff]
    exact (inv_pass2_fold ir e.id e.name hshape entities _
      (inv_pass1_fold e hreg hshape entities b he hid hextid)).2
  · intro ir b filePath entities e he hreg hshape hid hextid
    unfold Builder.updateFile
    rw [not_hasNode_iff]
    exact (inv_pass2_fold ir e.id e.name hshape entities _
      (inv_pass1_fold e hreg hshape entities _ he hid hextid)).2

theorem c1_witness :
    (Builder.resolveExternalReference gFG "g" "repo:b.py:g").hasNode
      ("external:" ++ "g") = false ∧
    ("repo:a.py:f", "repo:b.py:g", EdgeType.calls.value) ∈
      (Builder.resolveExternalReference gFG "g" "repo:b.py:g").edges ∧
    (Builder.buildFromEntities irNone bF [Entity.func fnG]).storage.hasNode
      ("external:" ++ "g") = false ∧
    (Builder.updateFile irNone bF "b.py" [Entity.func fnG]).storage.hasNode
      ("external:" ++ "g") = false := by
  have hNoOut : ∀ v t, ("external:" ++ "g", v, t) ∉ gFG.edges := by
    intro v t h
    have hE : gFG.edges = [("repo:a.py:f", "external:g", "calls")] := by decide
    rw [hE] at h
    have hfst := congrArg Prod.fst (List.mem_singleton.1 h)
    dsimp only at hfst
    exact absurd hfst (by decide)
  refine ⟨(c1_external_reconciliation.1 gFG "g" "repo:b.py:g"
      (by decide) (by decide) (by decide) (by decide) (by decide) hNoOut).1,
    (c1_external_reconciliation.1 gFG "g" "repo:b.py:g"
      (by decide) (by decide) (by decide) (by decide) (by decide) hNoOut).2
      "repo:a.py:f" EdgeType.calls (by decide),
    c1_external_reconciliation.2.1 irNone bF [Entity.func fnG] (Entity.func fnG)
      (by decide) (by decide) (by decide) (by decide) (by decide),
    c1_external_reconciliation.2.2 irNone bF "b.py" [Entity.func fnG] (Entity.func fnG)
      (by decide) (by decide) (by decide) (by decide) (by decide)⟩
